import Mathlib

/-!
Verification of the velo branching controller against its specification.

The repository implements Git-like branching for PostgreSQL on top of ZFS
and Docker.  This file shallowly embeds the parts of the source that the
claims concern: the persisted state document and its validation
(src/managers/state.ts), the atomic save protocol, the PITR snapshot
selection service (src/services/pitr-service.ts), snapshot naming
(src/utils/helpers.ts and the snapshot service), orphan detection
(src/utils/orphan-detection.ts), the WAL archive manager, the docker
SQL exec wrapper, the snapshot repository (deleteOld), and the branch
create / delete orchestration with its rollback registry.

Timestamps: the source stores ISO-8601 strings and compares them after
`new Date(...)` conversion; here a timestamp is modelled by its epoch
value (an integer), and the comparison is integer comparison, which is
exactly what the Date comparison performs.
-/

namespace Velo

/-- Branch lifecycle status, `running | stopped` in the source. -/
inductive BranchStatus
  | running
  | stopped
deriving DecidableEq, Repr

/-- Snapshot record of the state document (src/types/state.ts).
`createdAt` is the epoch value of the stored ISO-8601 string. -/
structure Snapshot where
  id : String
  branchId : String
  branchName : String
  projectName : String
  zfsSnapshot : String
  createdAt : Int
  label : Option String
  sizeBytes : Int
deriving DecidableEq, Repr

/-- Branch record of the state document (src/types/state.ts). -/
structure Branch where
  id : String
  name : String
  projectName : String
  parentBranchId : Option String
  isPrimary : Bool
  snapshotName : Option String
  zfsDataset : String
  port : Int
  createdAt : Int
  sizeBytes : Int
  status : BranchStatus
deriving DecidableEq, Repr

/-- Credentials of a project (username, password, database). -/
structure Credentials where
  username : String
  password : String
  database : String
deriving DecidableEq, Repr

/-- Project record of the state document (src/types/state.ts). -/
structure Project where
  id : String
  name : String
  dockerImage : String
  sslCertDir : String
  createdAt : Int
  credentials : Credentials
  branches : List Branch
deriving DecidableEq, Repr

/-- The global state document (src/types/state.ts). -/
structure State where
  version : String
  initializedAt : Int
  zfsPool : String
  zfsDatasetBase : String
  projects : List Project
  snapshots : List Snapshot
deriving DecidableEq, Repr

/-! ## C10 — SnapshotRepository.deleteOld (src/managers/repositories, part_014) -/

/-- JavaScript truthiness of a `string | undefined` value: `undefined`
and the empty string are falsy. -/
def jsTruthy : Option String → Bool
  | none => false
  | some s => !(s == "")

/-- The `isOld` test of `deleteOld`: `new Date(s.createdAt) < cutoff`. -/
def snapshotIsOld (cutoff : Int) (s : Snapshot) : Bool :=
  decide (s.createdAt < cutoff)

/-- The filter of the `toDelete` list in `SnapshotRepository.deleteOld`:
`if (branchName) return s.branchName === branchName && isOld; return isOld;`. -/
def deleteOldPred (branchName : Option String) (cutoff : Int) (s : Snapshot) : Bool :=
  if jsTruthy branchName then
    (s.branchName == branchName.getD "") && snapshotIsOld cutoff s
  else
    snapshotIsOld cutoff s

/-- The keep filter applied to `state.snapshots` when `dryRun` is false:
`if (branchName) return s.branchName !== branchName || !isOld; return !isOld;`. -/
def deleteOldKeep (branchName : Option String) (cutoff : Int) (s : Snapshot) : Bool :=
  if jsTruthy branchName then
    !(s.branchName == branchName.getD "") || !(snapshotIsOld cutoff s)
  else
    !(snapshotIsOld cutoff s)

/-- Result of `deleteOld`: the returned list, the snapshot list left in the
state document, and how many times `save` was invoked. -/
structure DeleteOldResult where
  toDelete : List Snapshot
  snapshots : List Snapshot
  saves : Nat
deriving DecidableEq, Repr

/-- SnapshotRepository.deleteOld.  The source computes
`cutoff = new Date(); cutoff.setDate(cutoff.getDate() - retentionDays)` once
on entry; `cutoff` here is that computed epoch value.  With `dryRun` the
snapshot list is untouched and `save` is never called; otherwise the list is
refiltered and `save` runs once. -/
def SnapshotRepository.deleteOld (snapshots : List Snapshot)
    (branchName : Option String) (cutoff : Int) (dryRun : Bool) :
    DeleteOldResult :=
  let toDelete := snapshots.filter (deleteOldPred branchName cutoff)
  if dryRun then
    { toDelete := toDelete, snapshots := snapshots, saves := 0 }
  else
    { toDelete := toDelete
      snapshots := snapshots.filter (deleteOldKeep branchName cutoff)
      saves := 1 }

/-- The two filters of `deleteOld` are pointwise complementary. -/
theorem deleteOldKeep_eq_not_pred (branchName : Option String) (cutoff : Int)
    (s : Snapshot) :
    deleteOldKeep branchName cutoff s = !(deleteOldPred branchName cutoff s) := by
  unfold deleteOldKeep deleteOldPred
  cases h : jsTruthy branchName <;> simp [Bool.not_and]

/-- C10: with dryRun=true, deleteOld returns exactly the snapshots older than
the cutoff (restricted to the branch when a non-empty branch name is given),
leaves the snapshot list unchanged and performs no save; with dryRun=false it
removes exactly that set (keeping precisely the complement, in order) and
saves once. -/
theorem deleteOld_frame_and_selection (snapshots : List Snapshot)
    (branchName : Option String) (cutoff : Int)
    (hb : branchName ≠ some "") :
    -- dry run: selection only, no mutation, no save
    (SnapshotRepository.deleteOld snapshots branchName cutoff true).toDelete =
      snapshots.filter (deleteOldPred branchName cutoff) ∧
    (SnapshotRepository.deleteOld snapshots branchName cutoff true).snapshots =
      snapshots ∧
    (SnapshotRepository.deleteOld snapshots branchName cutoff true).saves = 0 ∧
    -- real run: removes exactly the same set, saves once
    (SnapshotRepository.deleteOld snapshots branchName cutoff false).toDelete =
      snapshots.filter (deleteOldPred branchName cutoff) ∧
    (SnapshotRepository.deleteOld snapshots branchName cutoff false).snapshots =
      snapshots.filter (fun s => !(deleteOldPred branchName cutoff s)) ∧
    (SnapshotRepository.deleteOld snapshots branchName cutoff false).saves = 1 ∧
    -- the selection is what the claim says it is
    (∀ b, branchName = some b →
      snapshots.filter (deleteOldPred branchName cutoff) =
        snapshots.filter (fun s => s.branchName == b && decide (s.createdAt < cutoff))) ∧
    (branchName = none →
      snapshots.filter (deleteOldPred branchName cutoff) =
        snapshots.filter (fun s => decide (s.createdAt < cutoff))) := by
  refine ⟨rfl, rfl, rfl, rfl, ?_, rfl, ?_, ?_⟩
  · have h : snapshots.filter (deleteOldKeep branchName cutoff) =
        snapshots.filter (fun s => !(deleteOldPred branchName cutoff s)) := by
      apply List.filter_congr
      intro s _
      exact deleteOldKeep_eq_not_pred branchName cutoff s
    simpa [SnapshotRepository.deleteOld] using h
  · intro b hbb
    subst hbb
    have hbne : b ≠ "" := by
      intro h
      exact hb (by simp [h])
    unfold deleteOldPred snapshotIsOld jsTruthy
    simp [hbne]
  · intro h
    subst h
    unfold deleteOldPred snapshotIsOld jsTruthy
    simp

/-- Witness for C10 at a concrete input. -/
theorem deleteOld_frame_and_selection_witness :
    (some "api/dev" : Option String) ≠ some "" ∧
    ((SnapshotRepository.deleteOld [] (some "api/dev") 0 true).saves = 0) := by
  refine ⟨by decide, ?_⟩
  exact (deleteOld_frame_and_selection [] (some "api/dev") 0 (by decide)).2.2.1

/-! ## C6 — DockerManager.execSQL (part_011) -/

/-- Whitespace characters removed by the JavaScript string trim used on the
ASCII output of the PostgreSQL client. -/
def isJsSpace (c : Char) : Bool :=
  c == ' ' || c == '\t' || c == '\n' || c == '\r'

/-- JavaScript String.prototype.trim on the strings this program handles. -/
def jsTrim (s : String) : String :=
  (((s.toList.dropWhile isJsSpace).reverse.dropWhile isJsSpace).reverse).asString

/-- DockerManager.execSQL, abstracted over the spawned client's exit code,
stdout and stderr.  The inner branch throws
`new Error(error.trim() || "Command failed with exit code N")` only when the
exit code is non-zero, and the surrounding catch rewraps the message as
`SQL execution failed: ...`; on exit code zero it returns trimmed stdout. -/
def execSQL (exitCode : Int) (stdout stderr : String) : Except String String :=
  if exitCode ≠ 0 then
    .error ("SQL execution failed: " ++
      (if jsTrim stderr == "" then
        "Command failed with exit code " ++ toString exitCode
      else jsTrim stderr))
  else
    .ok (jsTrim stdout)

/-! ## C4 — selectSnapshotForPITR (src/services/pitr-service.ts) -/

/-- StateManager.getSnapshotsForBranch: filter of the flat snapshot list. -/
def getSnapshotsForBranch (snapshots : List Snapshot) (branchName : String) :
    List Snapshot :=
  snapshots.filter (fun s => s.branchName == branchName)

/-- Insertion step of the descending sort
`validSnapshots.sort((a, b) => b.createdAt - a.createdAt)`. -/
def insertByCreatedDesc (s : Snapshot) : List Snapshot → List Snapshot
  | [] => [s]
  | t :: ts =>
    if t.createdAt ≤ s.createdAt then s :: t :: ts
    else t :: insertByCreatedDesc s ts

/-- The descending sort by creation time (newest first). -/
def sortByCreatedDesc : List Snapshot → List Snapshot
  | [] => []
  | s :: ss => insertByCreatedDesc s (sortByCreatedDesc ss)

/-- One step of the JavaScript String.prototype.split with a single-char
separator, on the character list of the string. -/
def splitOnCharList (c : Char) : List Char → List (List Char)
  | [] => [[]]
  | x :: xs =>
    let r := splitOnCharList c xs
    if x = c then [] :: r
    else
      match r with
      | [] => [[x]]
      | h :: t => (x :: h) :: t

/-- JavaScript `s.split(sep)` for a single-character separator. -/
def jsSplit (sep : Char) (s : String) : List String :=
  (splitOnCharList sep s.toList).map List.asString

/-- Errors of the PITR selection service. -/
inductive PitrError
  | noSnapshotBeforeTarget
  | invalidSnapshotNameFormat
deriving DecidableEq, Repr

/-- Result tuple of the PITR selection service. -/
structure SnapshotSelection where
  fullSnapshotName : String
  snapshotName : String
  snapshot : Snapshot
deriving DecidableEq, Repr

/-- selectSnapshotForPITR: keep the source branch's snapshots created strictly
before the recovery target, sort them newest-first, take the head, and split
its full name on the `@` separator.  An empty qualifying set is the
"no snapshot before target" user error; a malformed full name
(`parts.length !== 2 || !parts[1]`) is the "invalid snapshot name" error. -/
def selectSnapshotForPITR (sourceBranchName : String) (recoveryTarget : Int)
    (snapshots : List Snapshot) : Except PitrError SnapshotSelection :=
  let snaps := getSnapshotsForBranch snapshots sourceBranchName
  let validSnapshots := snaps.filter (fun s => decide (s.createdAt < recoveryTarget))
  if validSnapshots.isEmpty then .error .noSnapshotBeforeTarget
  else
    match sortByCreatedDesc validSnapshots with
    | [] => .error .noSnapshotBeforeTarget
    | selectedSnapshot :: _ =>
      match jsSplit '@' selectedSnapshot.zfsSnapshot with
      | [_, snapName] =>
        if snapName == "" then .error .invalidSnapshotNameFormat
        else
          .ok { fullSnapshotName := selectedSnapshot.zfsSnapshot
                snapshotName := snapName
                snapshot := selectedSnapshot }
      | _ => .error .invalidSnapshotNameFormat

/-- Membership is preserved by the insertion step. -/
theorem mem_insertByCreatedDesc {a s : Snapshot} {l : List Snapshot} :
    a ∈ insertByCreatedDesc s l ↔ a = s ∨ a ∈ l := by
  induction l with
  | nil => simp [insertByCreatedDesc]
  | cons t ts ih =>
    unfold insertByCreatedDesc
    by_cases h : t.createdAt ≤ s.createdAt
    · simp [h]
    · simp only [h, if_false, List.mem_cons, ih]
      tauto

/-- Membership is preserved by the descending sort. -/
theorem mem_sortByCreatedDesc {a : Snapshot} {l : List Snapshot} :
    a ∈ sortByCreatedDesc l ↔ a ∈ l := by
  induction l with
  | nil => simp [sortByCreatedDesc]
  | cons s ss ih =>
    simp [sortByCreatedDesc, mem_insertByCreatedDesc, ih]

/-- The insertion step preserves the pairwise descending order. -/
theorem pairwise_insertByCreatedDesc {s : Snapshot} {l : List Snapshot}
    (h : l.Pairwise (fun a b => b.createdAt ≤ a.createdAt)) :
    (insertByCreatedDesc s l).Pairwise (fun a b => b.createdAt ≤ a.createdAt) := by
  induction l with
  | nil => simp [insertByCreatedDesc]
  | cons t ts ih =>
    unfold insertByCreatedDesc
    rcases List.pairwise_cons.mp h with ⟨ht, hts⟩
    by_cases hc : t.createdAt ≤ s.createdAt
    · simp only [hc, if_true]
      refine List.pairwise_cons.mpr ⟨?_, h⟩
      intro b hb
      rcases List.mem_cons.mp hb with rfl | hb
      · exact hc
      · exact le_trans (ht b hb) hc
    · simp only [hc, if_false]
      refine List.pairwise_cons.mpr ⟨?_, ih hts⟩
      intro b hb
      rcases mem_insertByCreatedDesc.mp hb with rfl | hb
      · exact le_of_lt (lt_of_not_le hc)
      · exact ht b hb

/-- The sort produces a pairwise descending list. -/
theorem pairwise_sortByCreatedDesc (l : List Snapshot) :
    (sortByCreatedDesc l).Pairwise (fun a b => b.createdAt ≤ a.createdAt) := by
  induction l with
  | nil => simp [sortByCreatedDesc]
  | cons s ss ih => exact pairwise_insertByCreatedDesc ih

/-- The head of the descending sort is a maximal element of the input. -/
theorem sortByCreatedDesc_head_max {l : List Snapshot} {s : Snapshot}
    {rest : List Snapshot} (h : sortByCreatedDesc l = s :: rest) :
    s ∈ l ∧ ∀ t ∈ l, t.createdAt ≤ s.createdAt := by
  constructor
  · have : s ∈ sortByCreatedDesc l := by rw [h]; exact List.mem_cons_self s rest
    exact mem_sortByCreatedDesc.mp this
  · intro t ht
    have htmem : t ∈ sortByCreatedDesc l := mem_sortByCreatedDesc.mpr ht
    rw [h] at htmem
    rcases List.mem_cons.mp htmem with rfl | htmem
    · exact le_refl _
    · have hp := pairwise_sortByCreatedDesc l
      rw [h] at hp
      exact (List.pairwise_cons.mp hp).1 t htmem

/-! ## C1 — branchCreateCommand and the rollback registry
(src/commands/branch/create.ts; the Rollback class of src/utils/rollback.ts
is not in the dump and is modelled from the spec) -/

/-- External resources tracked by the branch create model: ZFS datasets and
snapshots, docker containers, and the bytes of the persisted state file. -/
structure World where
  datasets : List String
  snapshots : List String
  containers : List String
  stateFile : String
deriving DecidableEq, Repr

/-- Effect of `zfs.createSnapshot` inside the snapshot service. -/
def addSnapshotW (name : String) (w : World) : World :=
  { w with snapshots := w.snapshots ++ [name] }

/-- Effect of `zfs.cloneSnapshot(fullSnapshotName, targetDatasetName)`. -/
def addDatasetW (name : String) (w : World) : World :=
  { w with datasets := w.datasets ++ [name] }

/-- Effect of `docker.createContainer`. -/
def addContainerW (name : String) (w : World) : World :=
  { w with containers := w.containers ++ [name] }

/-- Compensator `zfs.destroyDataset(targetDatasetName, true)` (errors
swallowed by the `.catch`). -/
def destroyDatasetW (name : String) (w : World) : World :=
  { w with datasets := w.datasets.erase name }

/-- Compensator `zfs.destroySnapshot(fullSnapshotName)` (errors swallowed). -/
def destroySnapshotW (name : String) (w : World) : World :=
  { w with snapshots := w.snapshots.erase name }

/-- Compensator `docker.removeContainer(id)` (errors swallowed). -/
def removeContainerW (name : String) (w : World) : World :=
  { w with containers := w.containers.erase name }

/-- Effect of the `fs.rename` inside `StateManager.save` (called by
`state.branches.add`): the atomic rename commits the new serialized state
document.  The save steps before the rename (temp write, temp fsync, the
swallowed backup copy) leave the state file untouched; the directory fsync
after the rename can still fail, with the new content already committed. -/
def writeStateFileW (content : String) (w : World) : World :=
  { w with stateFile := content }

/-- Modelled from the spec: the Rollback registry (src/utils/rollback.ts is
absent from the dump).  `add` pushes a compensating closure; `execute` runs
the closures in reverse insertion order, swallowing the errors of each.
The registry is a list whose head is the most recently added closure. -/
def pushComps (cs : List (World → World)) (regs : List (World → World)) :
    List (World → World) :=
  cs.foldl (fun acc c => c :: acc) regs

/-- Modelled from the spec: Rollback.execute runs the registered closures in
reverse insertion order (head of the registry list first). -/
def rollbackExec (regs : List (World → World)) (w : World) : World :=
  regs.foldl (fun w c => c w) w

/-- One external call of the try block: its effect on success, and the
compensators the command registers (in insertion order) right after it
succeeds. -/
structure StepDef where
  eff : World → World
  reg : List (World → World)

/-- Interpreter for the try block of branchCreateCommand: external calls are
numbered by a running counter, and `failAt` injects a failure into the call
with that number (the call then has no effect).  On a failure the command's
catch runs `rollback.execute()` on the registry accumulated so far and
re-raises; the resulting world is the error payload. -/
def runSteps (failAt : Option Nat) :
    Nat → List StepDef → World → List (World → World) →
    Except World (World × List (World → World))
  | _, [], w, regs => .ok (w, regs)
  | i, s :: rest, w, regs =>
    if failAt = some i then .error (rollbackExec regs w)
    else runSteps failAt (i + 1) rest (s.eff w) (pushComps s.reg regs)

/-- Interpreter for the calls made before the try block (the snapshot
determination of step 4): a failure there propagates without running the
rollback registry, which is still empty. -/
def runCalls (failAt : Option Nat) :
    Nat → List (World → World) → World → Except World (World × Nat)
  | i, [], w => .ok (w, i)
  | i, e :: rest, w =>
    if failAt = some i then .error w
    else runCalls failAt (i + 1) rest (e w)

/-- The inputs of one branchCreateCommand execution that the model tracks. -/
structure CreateParams where
  pitr : Bool
  running : Bool
  imageMissing : Bool
  sourceBranch : String
  recoveryTarget : Int
  stateSnapshots : List Snapshot
  newSnapName : String
  targetDataset : String
  targetContainer : String
  newStateContent : String

/-- External calls before the try block.  In normal mode the snapshot service
runs `docker.getContainerByName` and the CHECKPOINT `execSQL` when the source
branch is running, then `zfs.createSnapshot`; in PITR mode the selection is a
pure computation over the state and makes no external call. -/
def branchCreatePhase1Calls (p : CreateParams) : List (World → World) :=
  if p.pitr then []
  else (if p.running then [id, id] else []) ++ [addSnapshotW p.newSnapName]

/-- The try block of branchCreateCommand as a step list: clone (registering
the destroy-dataset compensator and, only in normal mode, the
destroy-snapshot compensator), mount, getMountpoint, imageExists, the
conditional pull, WAL archive delete and recreate, the conditional PITR
recovery setup, container create (registering remove-container), start,
waitForHealthy, getContainerPort, getUsedSpace, and the state save split in
two: the part up to and including the atomic rename (a failure there leaves
the old state file) and the post-rename directory fsync (a failure there
propagates out of StateManager.save with the new content already
committed). -/
def branchCreatePhase2Steps (p : CreateParams) (fullSnapshotName : String) :
    List StepDef :=
  [ { eff := addDatasetW p.targetDataset
      reg := [destroyDatasetW p.targetDataset] ++
        (if p.pitr then [] else [destroySnapshotW fullSnapshotName]) },
    { eff := id, reg := [] },   -- zfs.mountDataset
    { eff := id, reg := [] },   -- zfs.getMountpoint
    { eff := id, reg := [] } ]  -- docker.imageExists
  ++ (if p.imageMissing then [{ eff := id, reg := [] }] else [])  -- pullImage
  ++ [ { eff := id, reg := [] },  -- wal.deleteArchiveDir
       { eff := id, reg := [] } ] -- wal.ensureArchiveDir
  ++ (if p.pitr then [{ eff := id, reg := [] }] else [])  -- setupPITRecovery
  ++ [ { eff := addContainerW p.targetContainer
         reg := [removeContainerW p.targetContainer] },
       { eff := id, reg := [] },  -- docker.startContainer
       { eff := id, reg := [] },  -- docker.waitForHealthy
       { eff := id, reg := [] },  -- docker.getContainerPort
       { eff := id, reg := [] },  -- zfs.getUsedSpace
       { eff := writeStateFileW p.newStateContent, reg := [] },  -- save up to rename
       { eff := id, reg := [] } ]  -- save: post-rename directory fsync

/-- branchCreateCommand from the installation of the rollback registry on:
determine the snapshot (PITR selection or fresh application-consistent
snapshot), then run the try block; on a failure inside the try block the
registry is executed in reverse and the error re-raised. -/
def branchCreateRun (p : CreateParams) (failAt : Option Nat) (w : World) :
    Except World World :=
  if p.pitr then
    match selectSnapshotForPITR p.sourceBranch p.recoveryTarget p.stateSnapshots with
    | .error _ => .error w
    | .ok sel =>
      match runSteps failAt 0 (branchCreatePhase2Steps p sel.fullSnapshotName) w [] with
      | .error w2 => .error w2
      | .ok (w2, _) => .ok w2
  else
    match runCalls failAt 0 (branchCreatePhase1Calls p) w with
    | .error w1 => .error w1
    | .ok (w1, i) =>
      match runSteps failAt i (branchCreatePhase2Steps p p.newSnapName) w1 [] with
      | .error w2 => .error w2
      | .ok (w2, _) => .ok w2

/-- The number of the external call that performs the clone: it follows the
phase-1 calls. -/
def cloneCallIdx (p : CreateParams) : Nat :=
  (branchCreatePhase1Calls p).length

/-- The number of the last call of the try block: the post-rename directory
fsync inside the state save.  A failure injected there propagates after the
atomic rename has already committed the new state document. -/
def saveFsyncIdx (p : CreateParams) : Nat :=
  cloneCallIdx p + (branchCreatePhase2Steps p p.newSnapName).length - 1

/-- Whether the snapshot determination preceding the try block succeeds: in
PITR mode the pure selection over the state must return a snapshot, in
normal mode it always does (the fresh snapshot is created by a phase-1
call). -/
def selectionOk (p : CreateParams) : Bool :=
  if p.pitr then
    match selectSnapshotForPITR p.sourceBranch p.recoveryTarget p.stateSnapshots with
    | .ok _ => true
    | .error _ => false
  else true

/-- Erasing a freshly appended element restores the original list. -/
theorem erase_append_singleton {α : Type} [DecidableEq α] (l : List α) (x : α)
    (h : x ∉ l) : (l ++ [x]).erase x = l := by
  induction l with
  | nil => simp
  | cons a as ih =>
    simp only [List.mem_cons, not_or] at h
    have hax : (a == x) = false :=
      beq_eq_false_iff_ne.mpr (fun hax => h.1 hax.symm)
    simp [List.cons_append, List.erase_cons, hax, ih h.2]

/-- Invariant at the entry of every step of the try block: executing the
registry accumulated so far restores the target world `tgt` — except at the
entry of the final step, the post-rename directory fsync of the state save,
where the atomic rename has already committed the new state document and
the registry restores `tgtLast` instead. -/
def EntryInv : List StepDef → World → List (World → World) → World → World → Prop
  | [], _, _, _, _ => True
  | [_], w, regs, _, tgtLast => rollbackExec regs w = tgtLast
  | s :: rest, w, regs, tgt, tgtLast =>
    rollbackExec regs w = tgt ∧
      EntryInv rest (s.eff w) (pushComps s.reg regs) tgt tgtLast

/-- If the entry invariant holds, a failure inside the try block lands on
`tgtLast` exactly when the failing call is the last step of the block, and
on `tgt` for every earlier failing call. -/
theorem runSteps_error_of_entryInv {failAt : Option Nat} {steps : List StepDef}
    {w tgt tgtLast w2 : World} {regs : List (World → World)} {i : Nat}
    (hinv : EntryInv steps w regs tgt tgtLast)
    (h : runSteps failAt i steps w regs = .error w2) :
    (failAt = some (i + steps.length - 1) ∧ w2 = tgtLast) ∨
    (failAt ≠ some (i + steps.length - 1) ∧ w2 = tgt) := by
  induction steps generalizing i w regs with
  | nil => simp [runSteps] at h
  | cons s rest ih =>
    unfold runSteps at h
    by_cases hf : failAt = some i
    · rw [if_pos hf] at h
      have hw : w2 = rollbackExec regs w := ((Except.error.injEq _ _).mp h).symm
      cases rest with
      | nil =>
        left
        constructor
        · simpa using hf
        · rw [hw]
          exact hinv
      | cons s2 rest2 =>
        right
        constructor
        · rw [hf]
          intro hcon
          injection hcon with hcon2
          simp only [List.length_cons] at hcon2
          omega
        · rw [hw]
          exact hinv.1
    · rw [if_neg hf] at h
      cases rest with
      | nil => simp [runSteps] at h
      | cons s2 rest2 =>
        have hrec := ih hinv.2 h
        have hidx : i + 1 + (s2 :: rest2).length - 1 =
            i + (s :: s2 :: rest2).length - 1 := by
          simp only [List.length_cons]
          omega
        rw [hidx] at hrec
        exact hrec

/-- Executing the normal-mode registry right after the clone undoes the
snapshot creation and the clone. -/
theorem undoNormal (w : World) (ds sn : String)
    (hds : ds ∉ w.datasets) (hsn : sn ∉ w.snapshots) :
    rollbackExec [destroySnapshotW sn, destroyDatasetW ds]
      (addDatasetW ds (addSnapshotW sn w)) = w := by
  obtain ⟨dl, sl, cl, sf⟩ := w

  simp [rollbackExec, pushComps, addDatasetW, addSnapshotW, destroyDatasetW,
        destroySnapshotW, erase_append_singleton _ _ hds,
        erase_append_singleton _ _ hsn]

/-- Executing the normal-mode registry after the container creation undoes
the container, the clone and the snapshot. -/
theorem undoNormalCtr (w : World) (ds sn c : String)
    (hds : ds ∉ w.datasets) (hsn : sn ∉ w.snapshots) (hc : c ∉ w.containers) :
    rollbackExec [removeContainerW c, destroySnapshotW sn, destroyDatasetW ds]
      (addContainerW c (addDatasetW ds (addSnapshotW sn w))) = w := by
  obtain ⟨dl, sl, cl, sf⟩ := w

  simp [rollbackExec, pushComps, addDatasetW, addSnapshotW, addContainerW,
        destroyDatasetW, destroySnapshotW, removeContainerW,
        erase_append_singleton _ _ hds, erase_append_singleton _ _ hsn,
        erase_append_singleton _ _ hc]

/-- Executing the PITR-mode registry right after the clone undoes the clone
(no snapshot was created). -/
theorem undoPitr (w : World) (ds : String) (hds : ds ∉ w.datasets) :
    rollbackExec [destroyDatasetW ds] (addDatasetW ds w) = w := by
  obtain ⟨dl, sl, cl, sf⟩ := w

  simp [rollbackExec, pushComps, addDatasetW, destroyDatasetW,
        erase_append_singleton _ _ hds]

/-- Executing the PITR-mode registry after the container creation undoes the
container and the clone. -/
theorem undoPitrCtr (w : World) (ds c : String)
    (hds : ds ∉ w.datasets) (hc : c ∉ w.containers) :
    rollbackExec [removeContainerW c, destroyDatasetW ds]
      (addContainerW c (addDatasetW ds w)) = w := by
  obtain ⟨dl, sl, cl, sf⟩ := w

  simp [rollbackExec, pushComps, addDatasetW, addContainerW, destroyDatasetW,
        removeContainerW, erase_append_singleton _ _ hds,
        erase_append_singleton _ _ hc]

/-- Executing the normal-mode registry after the rename committed the new
state document removes the container, the clone and the snapshot but leaves
the new state file: the compensators never touch the state file. -/
theorem undoNormalCtrSt (w : World) (ds sn c st : String)
    (hds : ds ∉ w.datasets) (hsn : sn ∉ w.snapshots) (hc : c ∉ w.containers) :
    rollbackExec [removeContainerW c, destroySnapshotW sn, destroyDatasetW ds]
      (writeStateFileW st (addContainerW c (addDatasetW ds (addSnapshotW sn w)))) =
      writeStateFileW st w := by
  obtain ⟨dl, sl, cl, sf⟩ := w

  simp [rollbackExec, pushComps, addDatasetW, addSnapshotW, addContainerW,
        destroyDatasetW, destroySnapshotW, removeContainerW, writeStateFileW,
        erase_append_singleton _ _ hds, erase_append_singleton _ _ hsn,
        erase_append_singleton _ _ hc]

/-- Executing the PITR-mode registry after the rename committed the new
state document removes the container and the clone but leaves the new state
file. -/
theorem undoPitrCtrSt (w : World) (ds c st : String)
    (hds : ds ∉ w.datasets) (hc : c ∉ w.containers) :
    rollbackExec [removeContainerW c, destroyDatasetW ds]
      (writeStateFileW st (addContainerW c (addDatasetW ds w))) =
      writeStateFileW st w := by
  obtain ⟨dl, sl, cl, sf⟩ := w

  simp [rollbackExec, pushComps, addDatasetW, addContainerW, destroyDatasetW,
        removeContainerW, writeStateFileW, erase_append_singleton _ _ hds,
        erase_append_singleton _ _ hc]

/-- The try-block steps after the clone, for decomposing the step list. -/
def branchCreateRestSteps (p : CreateParams) : List StepDef :=
  [ { eff := id, reg := [] },
    { eff := id, reg := [] },
    { eff := id, reg := [] } ]
  ++ (if p.imageMissing then [{ eff := id, reg := [] }] else [])
  ++ [ { eff := id, reg := [] },
       { eff := id, reg := [] } ]
  ++ (if p.pitr then [{ eff := id, reg := [] }] else [])
  ++ [ { eff := addContainerW p.targetContainer
         reg := [removeContainerW p.targetContainer] },
       { eff := id, reg := [] },
       { eff := id, reg := [] },
       { eff := id, reg := [] },
       { eff := id, reg := [] },
       { eff := writeStateFileW p.newStateContent, reg := [] },
       { eff := id, reg := [] } ]

/-- The step list of the try block starts with the clone step. -/
theorem branchCreatePhase2Steps_decomp (p : CreateParams) (sn : String) :
    branchCreatePhase2Steps p sn =
      { eff := addDatasetW p.targetDataset
        reg := [destroyDatasetW p.targetDataset] ++
          (if p.pitr then [] else [destroySnapshotW sn]) } ::
      branchCreateRestSteps p := rfl

/-- The fsync call number counted from the start of the post-clone steps. -/
theorem saveFsyncIdx_eq_rest (p : CreateParams) :
    saveFsyncIdx p = cloneCallIdx p + (branchCreateRestSteps p).length := by
  simp only [saveFsyncIdx, branchCreatePhase2Steps_decomp, List.length_cons]
  omega

/-- The length of the try-block step list does not depend on the snapshot
name threaded into the clone step's compensator. -/
theorem phase2_length_indep (p : CreateParams) (sn sn2 : String) :
    (branchCreatePhase2Steps p sn).length =
      (branchCreatePhase2Steps p sn2).length := by
  cases hp : p.pitr <;> cases himg : p.imageMissing <;>
    simp [branchCreatePhase2Steps, hp, himg]

/-- In PITR mode no external call precedes the try block. -/
theorem cloneCallIdx_pitr (p : CreateParams) (hp : p.pitr = true) :
    cloneCallIdx p = 0 := by
  simp [cloneCallIdx, branchCreatePhase1Calls, hp]

/-- Running the phase-1 calls either commits exactly the snapshot creation
(normal mode) and hands the clone call number to the try block, or fails at
one of the phase-1 call numbers leaving the world untouched. -/
theorem phase1_cases (p : CreateParams) (hp : p.pitr = false)
    (failAt : Option Nat) (w : World) :
    runCalls failAt 0 (branchCreatePhase1Calls p) w =
        .ok (addSnapshotW p.newSnapName w, cloneCallIdx p) ∨
    ((∃ k, failAt = some k ∧ k < cloneCallIdx p) ∧
      runCalls failAt 0 (branchCreatePhase1Calls p) w = .error w) := by
  cases hr : p.running
  · by_cases h0 : failAt = some 0
    · right
      refine ⟨⟨0, h0, ?_⟩, ?_⟩
      · simp [cloneCallIdx, branchCreatePhase1Calls, hp, hr]
      · simp [branchCreatePhase1Calls, hp, hr, runCalls, h0]
    · left
      simp [branchCreatePhase1Calls, hp, hr, runCalls, h0, cloneCallIdx]
  · by_cases h0 : failAt = some 0
    · right
      refine ⟨⟨0, h0, ?_⟩, ?_⟩
      · simp [cloneCallIdx, branchCreatePhase1Calls, hp, hr]
      · simp [branchCreatePhase1Calls, hp, hr, runCalls, h0]
    · by_cases h1 : failAt = some 1
      · right
        refine ⟨⟨1, h1, ?_⟩, ?_⟩
        · simp [cloneCallIdx, branchCreatePhase1Calls, hp, hr]
        · simp [branchCreatePhase1Calls, hp, hr, runCalls, h0, h1]
      · by_cases h2 : failAt = some 2
        · right
          refine ⟨⟨2, h2, ?_⟩, ?_⟩
          · simp [cloneCallIdx, branchCreatePhase1Calls, hp, hr]
          · simp [branchCreatePhase1Calls, hp, hr, runCalls, h0, h1, h2]
        · left
          simp [branchCreatePhase1Calls, hp, hr, runCalls, h0, h1, h2,
                cloneCallIdx]

/-- Entry invariant of the try block after the clone step, normal mode:
the registry restores the world as it was before the snapshot creation,
except at the entry of the final fsync call, where the rename has already
committed the new state document. -/
theorem entryInv_rest_normal (p : CreateParams) (hp : p.pitr = false)
    (w : World) (hds : p.targetDataset ∉ w.datasets)
    (hsn : p.newSnapName ∉ w.snapshots)
    (hctr : p.targetContainer ∉ w.containers) :
    EntryInv (branchCreateRestSteps p)
      (addDatasetW p.targetDataset (addSnapshotW p.newSnapName w))
      [destroySnapshotW p.newSnapName, destroyDatasetW p.targetDataset] w
      (writeStateFileW p.newStateContent w) := by
  have hA := undoNormal w p.targetDataset p.newSnapName hds hsn
  have hC := undoNormalCtr w p.targetDataset p.newSnapName p.targetContainer
    hds hsn hctr
  have hS := undoNormalCtrSt w p.targetDataset p.newSnapName p.targetContainer
    p.newStateContent hds hsn hctr
  cases himg : p.imageMissing
  · simp only [branchCreateRestSteps, hp, himg, Bool.false_eq_true, if_false,
      List.cons_append, List.nil_append]
    exact ⟨hA, hA, hA, hA, hA, hA, hC, hC, hC, hC, hC, hS⟩
  · simp only [branchCreateRestSteps, hp, himg, Bool.false_eq_true, if_false,
      if_true, List.cons_append, List.nil_append]
    exact ⟨hA, hA, hA, hA, hA, hA, hA, hC, hC, hC, hC, hC, hS⟩

/-- Entry invariant of the whole try block in PITR mode: the registry
restores the initial world (no snapshot was created in this mode), except at
the entry of the final fsync call, where the rename has already committed
the new state document. -/
theorem entryInv_pitr (p : CreateParams) (hp : p.pitr = true) (sn : String)
    (w : World) (hds : p.targetDataset ∉ w.datasets)
    (hctr : p.targetContainer ∉ w.containers) :
    EntryInv (branchCreatePhase2Steps p sn) w [] w
      (writeStateFileW p.newStateContent w) := by
  have hA := undoPitr w p.targetDataset hds
  have hC := undoPitrCtr w p.targetDataset p.targetContainer hds hctr
  have hS := undoPitrCtrSt w p.targetDataset p.targetContainer
    p.newStateContent hds hctr
  cases himg : p.imageMissing
  · simp only [branchCreatePhase2Steps, hp, himg, Bool.false_eq_true, if_false,
      if_true, List.cons_append, List.nil_append]
    exact ⟨rfl, hA, hA, hA, hA, hA, hA, hA, hC, hC, hC, hC, hC, hS⟩
  · simp only [branchCreatePhase2Steps, hp, himg, Bool.false_eq_true, if_false,
      if_true, List.cons_append, List.nil_append]
    exact ⟨rfl, hA, hA, hA, hA, hA, hA, hA, hA, hC, hC, hC, hC, hC, hS⟩

/-- C1 (amended): for every execution of branch create that fails after the
rollback registry is installed, the compensators remove the cloned dataset
and the created container; the snapshot created in normal mode is also
removed — except when the failing call is the clone itself, because the
destroy-snapshot compensator is only registered after the clone succeeds, so
a clone failure leaves the freshly created snapshot behind.  The persisted
state file is byte-identical to before the attempt for every failing call
except the last one, the directory fsync that StateManager.save performs
after its atomic rename: a failure there propagates out of the final state
save with the new state document already committed, so the rolled-back
attempt leaves the new state file behind. -/
theorem branchCreate_rollback_exact (p : CreateParams) (failAt : Option Nat)
    (w w2 : World)
    (hds : p.targetDataset ∉ w.datasets)
    (hsn : p.newSnapName ∉ w.snapshots)
    (hctr : p.targetContainer ∉ w.containers)
    (herr : branchCreateRun p failAt w = .error w2) :
    if p.pitr = false ∧ failAt = some (cloneCallIdx p)
    then w2 = addSnapshotW p.newSnapName w
    else if selectionOk p = true ∧ failAt = some (saveFsyncIdx p)
    then w2 = writeStateFileW p.newStateContent w
    else w2 = w := by
  cases hp : p.pitr
  · -- normal mode
    rw [branchCreateRun, if_neg (by simp [hp])] at herr
    rcases phase1_cases p hp failAt w with h1 | ⟨⟨k, hk, hklt⟩, h1⟩
    · rw [h1] at herr
      dsimp only at herr
      cases hrs : runSteps failAt (cloneCallIdx p)
          (branchCreatePhase2Steps p p.newSnapName)
          (addSnapshotW p.newSnapName w) [] with
      | ok pair =>
        rw [hrs] at herr
        exact absurd herr (by simp)
      | error we =>
        rw [hrs] at herr
        simp only [Except.error.injEq] at herr
        subst herr
        rw [branchCreatePhase2Steps_decomp, runSteps] at hrs
        by_cases hcl : failAt = some (cloneCallIdx p)
        · rw [if_pos hcl] at hrs
          simp only [Except.error.injEq] at hrs
          rw [if_pos ⟨rfl, hcl⟩]
          rw [← hrs]
          rfl
        · rw [if_neg hcl] at hrs
          simp only [hp, Bool.false_eq_true, if_false, List.cons_append,
            List.nil_append] at hrs
          rw [if_neg (by intro hcon; exact hcl hcon.2)]
          have hidx : cloneCallIdx p + 1 + (branchCreateRestSteps p).length - 1
              = saveFsyncIdx p := by
            rw [saveFsyncIdx_eq_rest]
            omega
          rcases runSteps_error_of_entryInv
              (entryInv_rest_normal p hp w hds hsn hctr) hrs with
            ⟨hfa, hw⟩ | ⟨hfa, hw⟩
          · rw [if_pos ⟨by simp [selectionOk, hp], by rw [hfa, hidx]⟩]
            exact hw
          · rw [if_neg ?_]
            · exact hw
            · intro hcon
              exact hfa (by rw [hcon.2, hidx])
    · rw [h1] at herr
      dsimp only at herr
      simp only [Except.error.injEq] at herr
      rw [if_neg ?_, if_neg ?_]
      · exact herr.symm
      · intro hcon
        rw [hk] at hcon
        have h2 := hcon.2
        injection h2 with h3
        have h4 := saveFsyncIdx_eq_rest p
        omega
      · intro hcon
        rw [hk] at hcon
        have h2 := hcon.2
        injection h2 with h3
        have h4 := saveFsyncIdx_eq_rest p
        omega
  · -- PITR mode: the clone-failure condition of the conclusion is false
    rw [branchCreateRun, if_pos (by simp [hp])] at herr
    cases hsel : selectSnapshotForPITR p.sourceBranch p.recoveryTarget
        p.stateSnapshots with
    | error e =>
      rw [hsel] at herr
      dsimp only at herr
      simp only [Except.error.injEq] at herr
      rw [if_neg (by intro hcon; exact absurd hcon.1 (by simp [hp])),
        if_neg ?_]
      · exact herr.symm
      · intro hcon
        have h2 := hcon.1
        simp [selectionOk, hp, hsel] at h2
    | ok sel =>
      rw [hsel] at herr
      dsimp only at herr
      cases hrs : runSteps failAt 0
          (branchCreatePhase2Steps p sel.fullSnapshotName) w [] with
      | ok pair =>
        rw [hrs] at herr
        exact absurd herr (by simp)
      | error we =>
        rw [hrs] at herr
        simp only [Except.error.injEq] at herr
        subst herr
        rw [if_neg (by intro hcon; exact absurd hcon.1 (by simp [hp]))]
        have hsOk : selectionOk p = true := by simp [selectionOk, hp, hsel]
        have hidx : 0 + (branchCreatePhase2Steps p sel.fullSnapshotName).length - 1
            = saveFsyncIdx p := by
          simp only [saveFsyncIdx]
          rw [cloneCallIdx_pitr p hp,
            phase2_length_indep p sel.fullSnapshotName p.newSnapName]
        rcases runSteps_error_of_entryInv
            (entryInv_pitr p hp sel.fullSnapshotName w hds hctr) hrs with
          ⟨hfa, hw⟩ | ⟨hfa, hw⟩
        · rw [if_pos ⟨hsOk, by rw [hfa, hidx]⟩]
          exact hw
        · rw [if_neg ?_]
          · exact hw
          · intro hcon
            exact hfa (by rw [hcon.2, hidx])

/-- Concrete branch create attempt used for the C1 counterexample: normal
(non-PITR) mode, running source, image present. -/
def c1Params : CreateParams :=
  { pitr := false
    running := true
    imageMissing := false
    sourceBranch := "api/main"
    recoveryTarget := 0
    stateSnapshots := []
    newSnapName := "tank/velo/api-main@snap1"
    targetDataset := "api-dev"
    targetContainer := "velo-api-dev"
    newStateContent := "state-v2" }

/-- Concrete initial world for the C1 counterexample. -/
def c1World : World :=
  { datasets := ["api-main"]
    snapshots := []
    containers := ["velo-api-main"]
    stateFile := "state-v1" }

/-- C1 counterexample: when the clone call itself fails (call number 3, right
after checkpoint and snapshot creation succeeded), the attempt fails after
the rollback registry was installed, yet the snapshot created by the attempt
remains afterwards — the registry was still empty, so nothing destroyed it. -/
theorem branchCreate_clone_failure_leaves_snapshot :
    branchCreateRun c1Params (some 3) c1World =
      .error { datasets := ["api-main"]
               snapshots := ["tank/velo/api-main@snap1"]
               containers := ["velo-api-main"]
               stateFile := "state-v1" } ∧
    c1World.snapshots = [] ∧
    ("tank/velo/api-main@snap1" :: ([] : List String)) ≠ [] := by
  refine ⟨by rfl, rfl, by simp⟩

/-- Witness for the amended C1 theorem: a mount failure (call number 4) is
rolled back completely, restoring the initial world, while a failure of the
post-rename directory fsync of the state save (call number 15) rolls back
the resources but leaves the new state document committed. -/
theorem branchCreate_rollback_exact_witness :
    ("api-dev" ∉ c1World.datasets) ∧
    branchCreateRun c1Params (some 4) c1World = .error c1World ∧
    (if c1Params.pitr = false ∧ (some 4 : Option Nat) = some (cloneCallIdx c1Params)
     then c1World = addSnapshotW c1Params.newSnapName c1World
     else if selectionOk c1Params = true ∧
         (some 4 : Option Nat) = some (saveFsyncIdx c1Params)
     then c1World = writeStateFileW c1Params.newStateContent c1World
     else c1World = c1World) ∧
    branchCreateRun c1Params (some 15) c1World =
      .error (writeStateFileW "state-v2" c1World) ∧
    (if c1Params.pitr = false ∧ (some 15 : Option Nat) = some (cloneCallIdx c1Params)
     then writeStateFileW "state-v2" c1World = addSnapshotW c1Params.newSnapName c1World
     else if selectionOk c1Params = true ∧
         (some 15 : Option Nat) = some (saveFsyncIdx c1Params)
     then writeStateFileW "state-v2" c1World =
       writeStateFileW c1Params.newStateContent c1World
     else writeStateFileW "state-v2" c1World = c1World) := by
  refine ⟨by decide, by rfl, ?_, by rfl, ?_⟩
  · exact branchCreate_rollback_exact c1Params (some 4) c1World c1World
      (by decide) (by decide) (by decide) (by rfl)
  · exact branchCreate_rollback_exact c1Params (some 15) c1World
      (writeStateFileW "state-v2" c1World)
      (by decide) (by decide) (by decide) (by rfl)

/-- Membership in the list of qualifying snapshots of the PITR selection. -/
theorem mem_validSnapshots {snapshots : List Snapshot} {source : String}
    {target : Int} {s : Snapshot} :
    s ∈ (getSnapshotsForBranch snapshots source).filter
        (fun s => decide (s.createdAt < target)) ↔
      s ∈ snapshots ∧ s.branchName = source ∧ s.createdAt < target := by
  simp only [getSnapshotsForBranch, List.mem_filter, decide_eq_true_eq,
    beq_iff_eq]
  tauto

/-- C4: PITR snapshot selection returns the newest snapshot of the source
branch created strictly before the target (maximal createdAt among the
qualifying set), fails with the "no snapshot before target" user error when
none qualifies, and a failing selection aborts branch create with the world
untouched — no clone is attempted.  The well-formedness hypothesis states
that the stored full snapshot names of that branch have the
`<dataset>@<stamp>` shape the data model prescribes. -/
theorem selectSnapshotForPITR_spec (source : String) (target : Int)
    (snapshots : List Snapshot)
    (hwf : ∀ s ∈ snapshots, s.branchName = source →
      ∃ a b, b ≠ "" ∧ jsSplit '@' s.zfsSnapshot = [a, b]) :
    ((∃ s ∈ snapshots, s.branchName = source ∧ s.createdAt < target) →
      ∃ sel, selectSnapshotForPITR source target snapshots = .ok sel ∧
        sel.snapshot ∈ snapshots ∧
        sel.snapshot.branchName = source ∧
        sel.snapshot.createdAt < target ∧
        (∀ t ∈ snapshots, t.branchName = source → t.createdAt < target →
          t.createdAt ≤ sel.snapshot.createdAt) ∧
        sel.fullSnapshotName = sel.snapshot.zfsSnapshot) ∧
    ((¬ ∃ s ∈ snapshots, s.branchName = source ∧ s.createdAt < target) →
      selectSnapshotForPITR source target snapshots =
        .error .noSnapshotBeforeTarget) ∧
    (∀ (p : CreateParams) (failAt : Option Nat) (w : World) (e : PitrError),
      p.pitr = true → p.sourceBranch = source → p.recoveryTarget = target →
      p.stateSnapshots = snapshots →
      selectSnapshotForPITR source target snapshots = .error e →
      branchCreateRun p failAt w = .error w) := by
  refine ⟨?_, ?_, ?_⟩
  · rintro ⟨s0, hs0, hbn0, hlt0⟩
    have hmem0 : s0 ∈ (getSnapshotsForBranch snapshots source).filter
        (fun s => decide (s.createdAt < target)) :=
      mem_validSnapshots.mpr ⟨hs0, hbn0, hlt0⟩
    cases hsort : sortByCreatedDesc ((getSnapshotsForBranch snapshots source).filter
        (fun s => decide (s.createdAt < target))) with
    | nil =>
      have := mem_sortByCreatedDesc.mpr hmem0
      rw [hsort] at this
      simp at this
    | cons sel rest =>
      have hmax := sortByCreatedDesc_head_max hsort
      have hselq := mem_validSnapshots.mp hmax.1
      obtain ⟨a, b, hb, hsplit⟩ := hwf sel hselq.1 hselq.2.1
      have hne : ((getSnapshotsForBranch snapshots source).filter
          (fun s => decide (s.createdAt < target))).isEmpty = false := by
        cases hval : (getSnapshotsForBranch snapshots source).filter
            (fun s => decide (s.createdAt < target)) with
        | nil => rw [hval] at hmem0; simp at hmem0
        | cons x xs => simp
      refine ⟨{ fullSnapshotName := sel.zfsSnapshot, snapshotName := b
                snapshot := sel }, ?_, hselq.1, hselq.2.1, hselq.2.2, ?_, rfl⟩
      · unfold selectSnapshotForPITR
        rw [if_neg (by rw [hne]; simp)]
        rw [hsort]
        dsimp only
        rw [hsplit]
        dsimp only
        rw [if_neg (by simp [hb])]
      · intro t ht htb htlt
        exact hmax.2 t (mem_validSnapshots.mpr ⟨ht, htb, htlt⟩)
  · intro hno
    have hval : (getSnapshotsForBranch snapshots source).filter
        (fun s => decide (s.createdAt < target)) = [] := by
      rw [List.eq_nil_iff_forall_not_mem]
      intro s hs
      exact hno ⟨s, (mem_validSnapshots.mp hs).1, (mem_validSnapshots.mp hs).2⟩
    unfold selectSnapshotForPITR
    rw [if_pos (by rw [hval]; rfl)]
  · intro p failAt w e hp hsrc htgt hsnap hsel
    rw [branchCreateRun, if_pos (by simp [hp]), hsrc, htgt, hsnap, hsel]

/-- Concrete snapshots for the C4 witness. -/
def c4Snap1 : Snapshot :=
  { id := "id1", branchId := "b1", branchName := "db/main"
    projectName := "db", zfsSnapshot := "tank/velo/db-main@snap1"
    createdAt := 10, label := none, sizeBytes := 0 }

/-- Second concrete snapshot for the C4 witness (newer than the target). -/
def c4Snap2 : Snapshot :=
  { id := "id2", branchId := "b1", branchName := "db/main"
    projectName := "db", zfsSnapshot := "tank/velo/db-main@snap2"
    createdAt := 20, label := none, sizeBytes := 0 }

/-- Witness for C4: with two snapshots at times 10 and 20 and target 15, the
selection succeeds and the selected snapshot dominates the qualifying set. -/
theorem selectSnapshotForPITR_spec_witness :
    ∃ sel, selectSnapshotForPITR "db/main" 15 [c4Snap1, c4Snap2] = .ok sel ∧
      sel.snapshot ∈ [c4Snap1, c4Snap2] ∧
      sel.snapshot.branchName = "db/main" ∧
      sel.snapshot.createdAt < 15 ∧
      (∀ t ∈ [c4Snap1, c4Snap2], t.branchName = "db/main" →
        t.createdAt < 15 → t.createdAt ≤ sel.snapshot.createdAt) ∧
      sel.fullSnapshotName = sel.snapshot.zfsSnapshot := by
  have hwf : ∀ s ∈ [c4Snap1, c4Snap2], s.branchName = "db/main" →
      ∃ a b, b ≠ "" ∧ jsSplit '@' s.zfsSnapshot = [a, b] := by
    intro s hs _
    rcases List.mem_cons.mp hs with rfl | hs
    · exact ⟨"tank/velo/db-main", "snap1", by decide, by rfl⟩
    rcases List.mem_cons.mp hs with rfl | hs
    · exact ⟨"tank/velo/db-main", "snap2", by decide, by rfl⟩
    · simp at hs
  exact (selectSnapshotForPITR_spec "db/main" 15 [c4Snap1, c4Snap2] hwf).1
    ⟨c4Snap1, by simp, rfl, by decide⟩

/-- C6 counterexample: with exit code 0 the call succeeds and returns trimmed
stdout even though stderr is non-empty, contradicting the claim that any
non-empty stderr propagates as an error; and when it does error, the message
is prefixed, not the raw stderr text. -/
theorem execSQL_counterexample :
    execSQL 0 " ok " "WARNING: terminating connection" = .ok "ok" ∧
    "WARNING: terminating connection" ≠ "" ∧
    execSQL 1 "" "boom" = .error "SQL execution failed: boom" ∧
    "SQL execution failed: boom" ≠ "boom" := by
  refine ⟨by rfl, by decide, by rfl, by decide⟩

/-- C6 (amended): execSQL returns trimmed stdout exactly when the client
exits zero (regardless of stderr); it propagates an error exactly when the
exit code is non-zero, and the message is "SQL execution failed: " followed
by the trimmed stderr, or by a fallback naming the exit code when stderr
trims to empty. -/
theorem execSQL_spec (exitCode : Int) (stdout stderr : String) :
    (exitCode = 0 → execSQL exitCode stdout stderr = .ok (jsTrim stdout)) ∧
    (exitCode ≠ 0 → jsTrim stderr ≠ "" →
      execSQL exitCode stdout stderr =
        .error ("SQL execution failed: " ++ jsTrim stderr)) ∧
    (exitCode ≠ 0 → jsTrim stderr = "" →
      execSQL exitCode stdout stderr =
        .error ("SQL execution failed: Command failed with exit code " ++
          toString exitCode)) ∧
    ((∃ msg, execSQL exitCode stdout stderr = .error msg) ↔ exitCode ≠ 0) := by
  unfold execSQL
  by_cases he : exitCode = 0
  · subst he
    simp
  · rw [if_pos he]
    refine ⟨fun h => absurd h he, ?_, ?_, ?_⟩
    · intro _ hne
      rw [if_neg (by simp [hne])]
    · intro _ hemp
      rw [if_pos (by simp [hemp])]
      rw [← String.append_assoc]
      congr 2
    · constructor
      · intro _; exact he
      · intro _; exact ⟨_, rfl⟩

/-- Witness for the amended C6 theorem at concrete inputs. -/
theorem execSQL_spec_witness :
    ((1 : Int) ≠ 0) ∧ jsTrim " boom " ≠ "" ∧
    execSQL 1 "out" " boom " = .error ("SQL execution failed: " ++ jsTrim " boom ") := by
  refine ⟨by decide, by decide, ?_⟩
  exact (execSQL_spec 1 "out" " boom ").2.1 (by decide) (by decide)

/-! ## C2 — StateManager.validate (src/managers/state.ts, lines 364-403) -/

/-- JavaScript `branch.name.includes('/')`. -/
def containsSlash (s : String) : Bool :=
  s.toList.any (· == '/')

/-- The inner loop of StateManager.validate over one project's branches,
threading the global `branchNames` set (a list here): reject a name without
a `/`, a duplicate name, or a `projectName` different from the owning
project's name. -/
def validateBranches (projName : String) (seen : List String) :
    List Branch → Except String (List String)
  | [] => .ok seen
  | b :: bs =>
    if !(containsSlash b.name) then
      .error ("Branch name must be namespaced: " ++ b.name)
    else if seen.contains b.name then
      .error ("Duplicate branch name: " ++ b.name)
    else if b.projectName ≠ projName then
      .error ("Branch has incorrect projectName: " ++ b.name)
    else validateBranches projName (b.name :: seen) bs

/-- The outer loop of StateManager.validate over the projects: reject a
duplicate project name or a project without a primary branch, then validate
its branches. -/
def validateProjects (projSeen branchSeen : List String) :
    List Project → Except String Unit
  | [] => .ok ()
  | p :: ps =>
    if projSeen.contains p.name then
      .error ("Duplicate project name: " ++ p.name)
    else if !(p.branches.any (·.isPrimary)) then
      .error ("Project must have a main branch: " ++ p.name)
    else
      match validateBranches p.name branchSeen p.branches with
      | .error e => .error e
      | .ok branchSeen2 => validateProjects (p.name :: projSeen) branchSeen2 ps

/-- StateManager.validate: the structural check
`!this.state.version || !this.state.zfsPool || !this.state.projects`
(empty strings are falsy; the parsed projects array is always truthy),
followed by the two loops.  StateManager.load parses the file and runs this;
any thrown error is rethrown as a SystemError, so load succeeds on an
existing file exactly when validate returns normally. -/
def validateState (st : State) : Except String Unit :=
  if st.version == "" || st.zfsPool == "" then
    .error "Invalid state structure"
  else validateProjects [] [] st.projects

/-- All branches of the state document, in order. -/
def allStateBranches (st : State) : List Branch :=
  (st.projects.map (·.branches)).flatten

/-- Spec invariant 1: no two projects share a name and no two branches share
a namespaced name. -/
@[reducible] def specInv1 (st : State) : Prop :=
  (st.projects.map (·.name)).Nodup ∧
  ((allStateBranches st).map (·.name)).Nodup

/-- Decidable form of invariant 2 for one branch: the name splits on `/`
into exactly two parts, the left being the owning project's name. -/
def branchNameOkForProject (pname : String) (b : Branch) : Bool :=
  match jsSplit '/' b.name with
  | [l, r] => l == pname && !(r == "")
  | _ => false

/-- Spec invariant 2: every branch name contains exactly one `/` and
decomposes into `<project>/<branch>` with the left side equal to the owning
project's name. -/
@[reducible] def specInv2 (st : State) : Prop :=
  ∀ p ∈ st.projects, ∀ b ∈ p.branches, branchNameOkForProject p.name b = true

/-- Spec invariant 3: every project has exactly one primary branch and the
primary has no parent. -/
@[reducible] def specInv3 (st : State) : Prop :=
  ∀ p ∈ st.projects,
    (p.branches.filter (·.isPrimary)).length = 1 ∧
    ∀ b ∈ p.branches, b.isPrimary = true → b.parentBranchId = none

/-- Spec invariant 4: every non-primary branch's parent reference resolves
to a branch of the same project. -/
@[reducible] def specInv4 (st : State) : Prop :=
  ∀ p ∈ st.projects, ∀ b ∈ p.branches, b.isPrimary = false →
    ∃ pb ∈ p.branches, b.parentBranchId = some pb.id

/-- Decidable form of invariant 5 for one branch: the dataset name is
`<project>-<branch>`. -/
def datasetNameOk (pname : String) (b : Branch) : Bool :=
  match jsSplit '/' b.name with
  | [_, r] => b.zfsDataset == pname ++ "-" ++ r
  | _ => false

/-- Spec invariant 5: filesystem dataset names are `<project>-<branch>` and
globally unique. -/
@[reducible] def specInv5 (st : State) : Prop :=
  (∀ p ∈ st.projects, ∀ b ∈ p.branches, datasetNameOk p.name b = true) ∧
  ((allStateBranches st).map (·.zfsDataset)).Nodup

/-- The conjunction of the five data-model invariants of the spec. -/
@[reducible] def specInvariants (st : State) : Prop :=
  specInv1 st ∧ specInv2 st ∧ specInv3 st ∧ specInv4 st ∧ specInv5 st

/-- A state document with two primary branches in one project (violating
invariant 3), a parent-less non-primary branch is avoided by marking both
primary; it also violates nothing the code checks. -/
def c2State : State :=
  { version := "1.0.0"
    initializedAt := 0
    zfsPool := "tank"
    zfsDatasetBase := "velo/databases"
    projects :=
      [ { id := "p1", name := "api", dockerImage := "postgres:17-alpine"
          sslCertDir := "/certs/api", createdAt := 0
          credentials := { username := "postgres", password := "pw"
                           database := "postgres" }
          branches :=
            [ { id := "b1", name := "api/main", projectName := "api"
                parentBranchId := none, isPrimary := true
                snapshotName := none, zfsDataset := "api-main", port := 5432
                createdAt := 0, sizeBytes := 0, status := .running },
              { id := "b2", name := "api/dev", projectName := "api"
                parentBranchId := none, isPrimary := true
                snapshotName := none, zfsDataset := "api-dev", port := 5433
                createdAt := 0, sizeBytes := 0, status := .running } ] } ]
    snapshots := [] }

/-- C2 counterexample: a state violating invariant 3 (two primary branches
in one project; a primary would also be allowed to carry a parent) loads
successfully — validate accepts it — refuting the claim that every violation
of the five invariants is a load failure. -/
theorem validate_accepts_invariant_violation :
    validateState c2State = .ok () ∧ ¬ specInv3 c2State ∧ ¬ specInvariants c2State := by
  refine ⟨by rfl, by decide, ?_⟩
  intro h
  exact absurd h.2.2.1 (by decide)

/-- Forward characterization of the branch loop: success determines the new
accumulator and forces the checked conditions. -/
theorem validateBranches_ok_imp (projName : String) (bs : List Branch) :
    ∀ (seen out : List String),
      validateBranches projName seen bs = .ok out →
      out = (bs.map (·.name)).reverse ++ seen ∧
      (∀ b ∈ bs, containsSlash b.name = true ∧ b.projectName = projName) ∧
      (bs.map (·.name)).Nodup ∧
      (∀ b ∈ bs, b.name ∉ seen) := by
  induction bs with
  | nil =>
    intro seen out h
    simp only [validateBranches, Except.ok.injEq] at h
    subst h
    simp
  | cons b bs ih =>
    intro seen out h
    unfold validateBranches at h
    by_cases h1 : containsSlash b.name
    · rw [if_neg (by simp [h1])] at h
      by_cases h2 : seen.contains b.name
      · rw [if_pos h2] at h
        exact absurd h (by simp)
      · rw [if_neg h2] at h
        by_cases h3 : b.projectName ≠ projName
        · rw [if_pos h3] at h
          exact absurd h (by simp)
        · rw [if_neg h3] at h
          obtain ⟨hout, hall, hnodup, hseen⟩ := ih (b.name :: seen) out h
          push_neg at h3
          have hnotseen : b.name ∉ seen := by
            intro hc
            exact h2 (List.elem_eq_true_of_mem hc)
          refine ⟨?_, ?_, ?_, ?_⟩
          · rw [hout]
            simp [List.append_assoc]
          · intro x hx
            rcases List.mem_cons.mp hx with rfl | hx
            · exact ⟨h1, h3⟩
            · exact hall x hx
          · refine List.nodup_cons.mpr ⟨?_, hnodup⟩
            intro hmem
            obtain ⟨x, hx, hxe⟩ := List.mem_map.mp hmem
            exact hseen x hx (by rw [hxe]; exact List.mem_cons_self _ _)
          · intro x hx
            rcases List.mem_cons.mp hx with rfl | hx
            · exact hnotseen
            · exact fun hc => hseen x hx (List.mem_cons_of_mem _ hc)
    · rw [if_pos (by simp [h1])] at h
      exact absurd h (by simp)

/-- Backward characterization of the branch loop: the checked conditions
suffice for success, with the stated accumulator. -/
theorem validateBranches_imp_ok (projName : String) (bs : List Branch) :
    ∀ seen : List String,
      (∀ b ∈ bs, containsSlash b.name = true ∧ b.projectName = projName) →
      (bs.map (·.name)).Nodup →
      (∀ b ∈ bs, b.name ∉ seen) →
      validateBranches projName seen bs =
        .ok ((bs.map (·.name)).reverse ++ seen) := by
  induction bs with
  | nil =>
    intro seen _ _ _
    simp [validateBranches]
  | cons b bs ih =>
    intro seen hall hnodup hseen
    have h1 : containsSlash b.name = true := (hall b (List.mem_cons_self _ _)).1
    have h3 : b.projectName = projName := (hall b (List.mem_cons_self _ _)).2
    unfold validateBranches
    rw [if_neg (by simp [h1]),
      if_neg (by simpa using hseen b (List.mem_cons_self _ _)),
      if_neg (by simp [h3])]
    have hbs : validateBranches projName (b.name :: seen) bs =
        .ok ((bs.map (·.name)).reverse ++ (b.name :: seen)) := by
      apply ih
      · intro x hx; exact hall x (List.mem_cons_of_mem _ hx)
      · exact (List.nodup_cons.mp hnodup).2
      · intro x hx
        intro hc
        rcases List.mem_cons.mp hc with he | hc
        · have hmm : x.name ∈ bs.map (·.name) := List.mem_map_of_mem (·.name) hx
          rw [he] at hmm
          exact (List.nodup_cons.mp hnodup).1 hmm
        · exact hseen x (List.mem_cons_of_mem _ hx) hc
    rw [hbs]
    simp [List.append_assoc]

/-- Forward characterization of the project loop. -/
theorem validateProjects_ok_imp (ps : List Project) :
    ∀ (projSeen branchSeen : List String),
      validateProjects projSeen branchSeen ps = .ok () →
      (ps.map (·.name)).Nodup ∧
      (∀ p ∈ ps, p.name ∉ projSeen) ∧
      (∀ p ∈ ps, p.branches.any (·.isPrimary) = true) ∧
      (∀ p ∈ ps, ∀ b ∈ p.branches,
        containsSlash b.name = true ∧ b.projectName = p.name) ∧
      ((ps.map (·.branches)).flatten.map (·.name)).Nodup ∧
      (∀ p ∈ ps, ∀ b ∈ p.branches, b.name ∉ branchSeen) := by
  induction ps with
  | nil =>
    intro projSeen branchSeen _
    simp
  | cons p ps ih =>
    intro projSeen branchSeen h
    unfold validateProjects at h
    by_cases h1 : projSeen.contains p.name
    · rw [if_pos h1] at h
      exact absurd h (by simp)
    · rw [if_neg h1] at h
      by_cases h2 : p.branches.any (·.isPrimary)
      · rw [if_neg (by simp [h2])] at h
        cases hvb : validateBranches p.name branchSeen p.branches with
        | error e =>
          rw [hvb] at h
          exact absurd h (by simp)
        | ok seen2 =>
          rw [hvb] at h
          obtain ⟨hout, hhead, hheadnodup, hheadseen⟩ :=
            validateBranches_ok_imp p.name p.branches branchSeen seen2 hvb
          obtain ⟨htail_nodup, htail_projseen, htail_any, htail_all,
            htail_flat, htail_seen⟩ := ih (p.name :: projSeen) seen2 h
          have hmem_seen2 : ∀ n, n ∈ seen2 ↔
              n ∈ p.branches.map (·.name) ∨ n ∈ branchSeen := by
            intro n
            rw [hout]
            simp
          refine ⟨?_, ?_, ?_, ?_, ?_, ?_⟩
          · refine List.nodup_cons.mpr ⟨?_, htail_nodup⟩
            intro hc
            obtain ⟨q, hq, hqe⟩ := List.mem_map.mp hc
            exact htail_projseen q hq (by rw [hqe]; exact List.mem_cons_self _ _)
          · intro q hq
            rcases List.mem_cons.mp hq with rfl | hq
            · intro hc; exact h1 (List.elem_eq_true_of_mem hc)
            · exact fun hc =>
                htail_projseen q hq (List.mem_cons_of_mem _ hc)
          · intro q hq
            rcases List.mem_cons.mp hq with rfl | hq
            · exact h2
            · exact htail_any q hq
          · intro q hq
            rcases List.mem_cons.mp hq with rfl | hq
            · exact hhead
            · exact htail_all q hq
          · simp only [List.map_cons, List.flatten_cons, List.map_append]
            rw [List.nodup_append]
            refine ⟨hheadnodup, htail_flat, ?_⟩
            intro a ha hc
            obtain ⟨x, hx, hxe⟩ := List.mem_map.mp hc
            have hex : ∃ q ∈ ps, x ∈ q.branches := by
              obtain ⟨bl, hbl, hxbl⟩ := List.mem_flatten.mp hx
              obtain ⟨q, hq, hrw⟩ := List.mem_map.mp hbl
              exact ⟨q, hq, by rw [hrw]; exact hxbl⟩
            obtain ⟨q, hq, hxq⟩ := hex
            have := htail_seen q hq x hxq
            rw [hxe] at this
            exact this ((hmem_seen2 a).mpr (Or.inl ha))
          · intro q hq b hb
            rcases List.mem_cons.mp hq with rfl | hq
            · exact hheadseen b hb
            · intro hc
              exact htail_seen q hq b hb ((hmem_seen2 b.name).mpr (Or.inr hc))
      · rw [if_pos (by simp [h2])] at h
        exact absurd h (by simp)

/-- Backward characterization of the project loop. -/
theorem validateProjects_imp_ok (ps : List Project) :
    ∀ (projSeen branchSeen : List String),
      (ps.map (·.name)).Nodup →
      (∀ p ∈ ps, p.name ∉ projSeen) →
      (∀ p ∈ ps, p.branches.any (·.isPrimary) = true) →
      (∀ p ∈ ps, ∀ b ∈ p.branches,
        containsSlash b.name = true ∧ b.projectName = p.name) →
      ((ps.map (·.branches)).flatten.map (·.name)).Nodup →
      (∀ p ∈ ps, ∀ b ∈ p.branches, b.name ∉ branchSeen) →
      validateProjects projSeen branchSeen ps = .ok () := by
  induction ps with
  | nil =>
    intro projSeen branchSeen _ _ _ _ _ _
    rfl
  | cons p ps ih =>
    intro projSeen branchSeen hnodup hprojseen hany hall hflat hseen
    have h2 : p.branches.any (·.isPrimary) = true :=
      hany p (List.mem_cons_self _ _)
    simp only [List.map_cons, List.flatten_cons, List.map_append,
      List.nodup_append] at hflat
    unfold validateProjects
    rw [if_neg (by simpa using hprojseen p (List.mem_cons_self _ _)),
      if_neg (by simp [h2])]
    rw [validateBranches_imp_ok p.name p.branches branchSeen
      (hall p (List.mem_cons_self _ _)) hflat.1
      (fun b hb => hseen p (List.mem_cons_self _ _) b hb)]
    apply ih (p.name :: projSeen)
      ((p.branches.map (·.name)).reverse ++ branchSeen)
    · exact (List.nodup_cons.mp hnodup).2
    · intro q hq
      intro hc
      rcases List.mem_cons.mp hc with he | hc
      · have hmm : q.name ∈ ps.map (·.name) := List.mem_map_of_mem (·.name) hq
        rw [he] at hmm
        exact (List.nodup_cons.mp hnodup).1 hmm
      · exact hprojseen q (List.mem_cons_of_mem _ hq) hc
    · intro q hq; exact hany q (List.mem_cons_of_mem _ hq)
    · intro q hq; exact hall q (List.mem_cons_of_mem _ hq)
    · exact hflat.2.1
    · intro q hq b hb
      intro hc
      rcases List.mem_append.mp hc with hc | hc
      · rw [List.mem_reverse] at hc
        exact hflat.2.2 hc
          (List.mem_map_of_mem (·.name)
            (List.mem_flatten.mpr
              ⟨q.branches, List.mem_map_of_mem (·.branches) hq, hb⟩))
      · exact hseen q (List.mem_cons_of_mem _ hq) b hb hc

/-- C2 (amended): load of an existing state file succeeds exactly when the
structural fields are non-empty, no two projects share a name, every project
has at least one primary branch, every branch name contains a `/` and its
`projectName` equals the owning project's name, and no two branches share a
namespaced name.  Exactly-one-primary, the primary having no parent, parent
resolution (invariant 4), the `<project>/` prefix of branch names, and the
dataset naming and uniqueness of invariant 5 are NOT validated. -/
theorem validateState_characterization (st : State) :
    validateState st = .ok () ↔
      st.version ≠ "" ∧ st.zfsPool ≠ "" ∧
      (st.projects.map (·.name)).Nodup ∧
      (∀ p ∈ st.projects, p.branches.any (·.isPrimary) = true) ∧
      (∀ p ∈ st.projects, ∀ b ∈ p.branches,
        containsSlash b.name = true ∧ b.projectName = p.name) ∧
      ((allStateBranches st).map (·.name)).Nodup := by
  unfold validateState
  by_cases hv : st.version == "" || st.zfsPool == ""
  · rw [if_pos hv]
    simp only [Bool.or_eq_true, beq_iff_eq] at hv
    constructor
    · intro h; exact absurd h (by simp)
    · rintro ⟨h1, h2, -⟩
      rcases hv with hv | hv
      · exact absurd hv h1
      · exact absurd hv h2
  · rw [if_neg hv]
    simp only [Bool.or_eq_true, beq_iff_eq, not_or] at hv
    constructor
    · intro h
      obtain ⟨ha, -, hb, hc, hd, -⟩ := validateProjects_ok_imp st.projects [] [] h
      exact ⟨hv.1, hv.2, ha, hb, hc, hd⟩
    · rintro ⟨-, -, ha, hb, hc, hd⟩
      exact validateProjects_imp_ok st.projects [] [] ha (by simp) hb hc hd
        (by simp)

/-- Witness for the amended C2 theorem: the characterization evaluated at the
two-primaries state, which load accepts. -/
theorem validateState_characterization_witness :
    ((c2State.projects.map (·.name)).Nodup ∧
      ((allStateBranches c2State).map (·.name)).Nodup) ∧
    validateState c2State = .ok () := by
  have h := (validateState_characterization c2State).mpr
    ⟨by decide, by decide, by decide, by decide, by decide, by decide⟩
  exact ⟨⟨by decide, by decide⟩, h⟩

/-! ## C7 — formatTimestamp (src/utils/helpers.ts) and the snapshot name of
the snapshot service.  Strings are modelled at the character-list level
because the claim is about the exact character shape. -/

/-- A UTC instant as the calendar fields `Date.prototype.toISOString` emits
(years 0-9999, the range in which toISOString uses the fixed 24-character
form). -/
structure JsDate where
  year : Nat
  month : Nat
  day : Nat
  hour : Nat
  minute : Nat
  second : Nat
  ms : Nat
deriving DecidableEq, Repr

/-- Two-digit zero-padded field of toISOString. -/
def pad2 (n : Nat) : List Char :=
  [Nat.digitChar (n / 10), Nat.digitChar (n % 10)]

/-- Three-digit zero-padded millisecond field of toISOString. -/
def pad3 (n : Nat) : List Char :=
  [Nat.digitChar (n / 100), Nat.digitChar (n / 10 % 10), Nat.digitChar (n % 10)]

/-- Four-digit zero-padded year field of toISOString. -/
def pad4 (n : Nat) : List Char :=
  [Nat.digitChar (n / 1000), Nat.digitChar (n / 100 % 10),
   Nat.digitChar (n / 10 % 10), Nat.digitChar (n % 10)]

/-- Date.prototype.toISOString: `YYYY-MM-DDTHH:MM:SS.mmmZ`. -/
def toISOStringChars (d : JsDate) : List Char :=
  pad4 d.year ++ '-' :: pad2 d.month ++ '-' :: pad2 d.day ++
  'T' :: pad2 d.hour ++ ':' :: pad2 d.minute ++ ':' :: pad2 d.second ++
  '.' :: pad3 d.ms ++ ['Z']

/-- The global regex replacement `replace(/[:.]/g, '-')` acts on each
character. -/
def replaceColonDot (c : Char) : Char :=
  if c = ':' ∨ c = '.' then '-' else c

/-- formatTimestamp:
`date.toISOString().replace(/[:.]/g, '-').slice(0, 23)`. -/
def formatTimestamp (d : JsDate) : List Char :=
  ((toISOStringChars d).map replaceColonDot).take 23

/-- The 23-character stamp shape `YYYY-MM-DDTHH-MM-SS-mmm` the spec names. -/
def timestampForm (d : JsDate) : List Char :=
  pad4 d.year ++ '-' :: pad2 d.month ++ '-' :: pad2 d.day ++
  'T' :: pad2 d.hour ++ '-' :: pad2 d.minute ++ '-' :: pad2 d.second ++
  '-' :: pad3 d.ms

/-- JavaScript truthiness of the optional label (absent or empty = falsy). -/
def jsTruthyChars : Option (List Char) → Bool
  | none => false
  | some l => !(l.isEmpty)

/-- The snapshot service's short name:
`label ? timestamp + "-" + label : timestamp`. -/
def snapshotNameOf (timestamp : List Char) (label : Option (List Char)) :
    List Char :=
  if jsTruthyChars label then timestamp ++ '-' :: (label.getD []) else timestamp

/-- The snapshot service's fully qualified name:
`datasetPath + "@" + snapshotName`. -/
def fullSnapshotNameOf (datasetPath snapshotName : List Char) : List Char :=
  datasetPath ++ '@' :: snapshotName

/-- Nat.digitChar never produces `:` or `.` (its outputs are digits,
lowercase hex letters, or `*`). -/
theorem digitChar_ne_colon_dot : ∀ n : Nat,
    Nat.digitChar n ≠ ':' ∧ Nat.digitChar n ≠ '.'
  | 0 => ⟨by decide, by decide⟩
  | 1 => ⟨by decide, by decide⟩
  | 2 => ⟨by decide, by decide⟩
  | 3 => ⟨by decide, by decide⟩
  | 4 => ⟨by decide, by decide⟩
  | 5 => ⟨by decide, by decide⟩
  | 6 => ⟨by decide, by decide⟩
  | 7 => ⟨by decide, by decide⟩
  | 8 => ⟨by decide, by decide⟩
  | 9 => ⟨by decide, by decide⟩
  | 10 => ⟨by decide, by decide⟩
  | 11 => ⟨by decide, by decide⟩
  | 12 => ⟨by decide, by decide⟩
  | 13 => ⟨by decide, by decide⟩
  | 14 => ⟨by decide, by decide⟩
  | 15 => ⟨by decide, by decide⟩
  | (n + 16) =>
    ⟨fun h => absurd h (show ('*' : Char) ≠ ':' by decide),
     fun h => absurd h (show ('*' : Char) ≠ '.' by decide)⟩

/-- Digit characters pass through the `[:.] → -` replacement unchanged. -/
theorem replaceColonDot_digitChar (n : Nat) :
    replaceColonDot (Nat.digitChar n) = Nat.digitChar n := by
  unfold replaceColonDot
  rw [if_neg]
  rintro (h | h)
  · exact (digitChar_ne_colon_dot n).1 h
  · exact (digitChar_ne_colon_dot n).2 h

/-- Literal evaluations of the replacement on the separator characters. -/
theorem replaceColonDot_colon : replaceColonDot ':' = '-' := rfl

/-- The dot is replaced by a dash. -/
theorem replaceColonDot_dot : replaceColonDot '.' = '-' := rfl

/-- The date-time separator passes through. -/
theorem replaceColonDot_T : replaceColonDot 'T' = 'T' := rfl

/-- Dashes pass through. -/
theorem replaceColonDot_dash : replaceColonDot '-' = '-' := rfl

/-- The terminal Z passes through. -/
theorem replaceColonDot_Z : replaceColonDot 'Z' = 'Z' := rfl

/-- C7: the created stamp is exactly the 23-character
`YYYY-MM-DDTHH-MM-SS-mmm` form (the ISO string with `:` and `.` replaced by
`-` and the trailing `Z` cut by the 23-character slice), and the snapshot
service names the snapshot `<fullDatasetPath>@<stamp>[-<label>]`. -/
theorem formatTimestamp_spec (d : JsDate) :
    formatTimestamp d = timestampForm d ∧
    (formatTimestamp d).length = 23 ∧
    (∀ dsPath : List Char,
      fullSnapshotNameOf dsPath (snapshotNameOf (formatTimestamp d) none) =
        dsPath ++ '@' :: timestampForm d) ∧
    (∀ dsPath lbl : List Char, lbl ≠ [] →
      fullSnapshotNameOf dsPath (snapshotNameOf (formatTimestamp d) (some lbl)) =
        dsPath ++ '@' :: (timestampForm d ++ '-' :: lbl)) := by
  have hmain : formatTimestamp d = timestampForm d := by
    have hdecomp : toISOStringChars d =
        (pad4 d.year ++ '-' :: pad2 d.month ++ '-' :: pad2 d.day ++
         'T' :: pad2 d.hour ++ ':' :: pad2 d.minute ++ ':' :: pad2 d.second ++
         '.' :: pad3 d.ms) ++ ['Z'] := by
      simp [toISOStringChars, List.append_assoc]
    rw [formatTimestamp, hdecomp, List.map_append]
    rw [List.take_left' (by simp [pad4, pad3, pad2])]
    simp only [timestampForm, pad4, pad3, pad2, List.map_append,
      List.map_cons, List.map_nil, replaceColonDot_digitChar,
      replaceColonDot_colon, replaceColonDot_dot, replaceColonDot_T,
      replaceColonDot_dash]
  have hlen : (timestampForm d).length = 23 := by
    unfold timestampForm pad4 pad3 pad2
    simp
  refine ⟨hmain, by rw [hmain]; exact hlen, ?_, ?_⟩
  · intro dsPath
    rw [hmain]
    rfl
  · intro dsPath lbl hl
    rw [hmain]
    unfold fullSnapshotNameOf snapshotNameOf jsTruthyChars
    rw [if_pos (by simp [List.isEmpty_iff, hl])]
    rfl

/-- Witness for C7 at a concrete instant and label. -/
theorem formatTimestamp_spec_witness :
    formatTimestamp ⟨2025, 10, 12, 12, 30, 29, 123⟩ =
      "2025-10-12T12-30-29-123".toList ∧
    (['d'] : List Char) ≠ [] ∧
    fullSnapshotNameOf "tank/velo/api-main".toList
      (snapshotNameOf (formatTimestamp ⟨2025, 10, 12, 12, 30, 29, 123⟩)
        (some ['d'])) =
      "tank/velo/api-main".toList ++
        '@' :: (timestampForm ⟨2025, 10, 12, 12, 30, 29, 123⟩ ++ '-' :: ['d']) := by
  refine ⟨by decide, by decide, ?_⟩
  exact (formatTimestamp_spec ⟨2025, 10, 12, 12, 30, 29, 123⟩).2.2.2
    "tank/velo/api-main".toList ['d'] (by decide)

/-! ## C9 — WALManager.ensureArchiveDir (part_012) -/

/-- Ownership and permission metadata of one file or directory. -/
structure FileMeta where
  mode : Nat
  uid : Nat
  gid : Nat
deriving DecidableEq, Repr

/-- The directories and files the WAL manager touches, with their metadata. -/
@[ext] structure ArchFS where
  dirs : String → Option FileMeta
  files : String → Option FileMeta

/-- Modelled from the spec: PATHS.WAL_ARCHIVE (src/utils/paths.ts is absent
from the dump); the WAL archive root is `<config root>/wal-archive`. -/
def walArchiveRoot : String := "/var/lib/velo/wal-archive"

/-- WALManager.getArchivePath. -/
def getArchivePath (datasetName : String) : String :=
  walArchiveRoot ++ "/" ++ datasetName

/-- Effect of `mkdir -p`: creates the directory (with shell-default metadata)
when absent, otherwise does nothing. -/
def mkdirP (p : String) (fs : ArchFS) : ArchFS :=
  match fs.dirs p with
  | some _ => fs
  | none =>
    { fs with dirs := fun q => if q = p then some ⟨0o755, 0, 0⟩ else fs.dirs q }

/-- Effect of `chmod` on a directory. -/
def chmodDir (p : String) (m : Nat) (fs : ArchFS) : ArchFS :=
  { fs with dirs := fun q =>
      if q = p then (fs.dirs q).map (fun meta => { meta with mode := m })
      else fs.dirs q }

/-- Effect of `sudo chown` on a directory. -/
def chownDir (p : String) (u g : Nat) (fs : ArchFS) : ArchFS :=
  { fs with dirs := fun q =>
      if q = p then (fs.dirs q).map (fun meta => { meta with uid := u, gid := g })
      else fs.dirs q }

/-- Effect of `Bun.write(path, '')`: creates the file with default metadata
when absent, otherwise truncates it keeping its metadata. -/
def writeEmptyFile (p : String) (fs : ArchFS) : ArchFS :=
  match fs.files p with
  | some _ => fs
  | none =>
    { fs with files := fun q => if q = p then some ⟨0o644, 0, 0⟩ else fs.files q }

/-- Effect of `chmod` on a file. -/
def chmodFile (p : String) (m : Nat) (fs : ArchFS) : ArchFS :=
  { fs with files := fun q =>
      if q = p then (fs.files q).map (fun meta => { meta with mode := m })
      else fs.files q }

/-- WALManager.ensureArchiveDir: `mkdir -p`, `chmod 770`, `sudo chown 70:70`,
write the `.keep` placeholder, `chmod 660` on it. -/
def ensureArchiveDir (datasetName : String) (fs : ArchFS) : ArchFS :=
  let walArchivePath := getArchivePath datasetName
  chmodFile (walArchivePath ++ "/.keep") 0o660
    (writeEmptyFile (walArchivePath ++ "/.keep")
      (chownDir walArchivePath 70 70
        (chmodDir walArchivePath 0o770
          (mkdirP walArchivePath fs))))

/-- The archive directory and its `.keep` file are distinct paths. -/
theorem keepPath_ne_dirPath (d : String) :
    getArchivePath d ++ "/.keep" ≠ getArchivePath d := by
  intro h
  have hlen := congrArg String.length h
  simp [String.length_append] at hlen
  exact absurd hlen (by decide)

/-- The explicit result of one ensureArchiveDir call: the directory carries
mode 0770 and owner 70:70 whatever it carried before; the `.keep` file has
mode 0660 and keeps its prior owner (root-created on first call). -/
theorem ensureArchiveDir_eq (d : String) (fs : ArchFS) :
    ensureArchiveDir d fs =
      { dirs := fun q =>
          if q = getArchivePath d then some ⟨0o770, 70, 70⟩ else fs.dirs q
        files := fun q =>
          if q = getArchivePath d ++ "/.keep" then
            some { mode := 0o660
                   uid := (match fs.files (getArchivePath d ++ "/.keep") with
                           | some m => m.uid
                           | none => 0)
                   gid := (match fs.files (getArchivePath d ++ "/.keep") with
                           | some m => m.gid
                           | none => 0) }
          else fs.files q } := by
  unfold ensureArchiveDir mkdirP chmodDir chownDir writeEmptyFile chmodFile
  cases hdir : fs.dirs (getArchivePath d) <;>
    cases hfile : fs.files (getArchivePath d ++ "/.keep") <;>
    refine ArchFS.ext (funext fun q => ?_) (funext fun q => ?_) <;>
    by_cases hq1 : q = getArchivePath d <;>
    by_cases hq2 : q = getArchivePath d ++ "/.keep" <;>
    simp [hq1, hq2, hdir, hfile, keepPath_ne_dirPath d,
      (keepPath_ne_dirPath d).symm]

/-- One call of ensureArchiveDir makes further calls no-ops. -/
theorem ensureArchiveDir_idem (d : String) (fs : ArchFS) :
    ensureArchiveDir d (ensureArchiveDir d fs) = ensureArchiveDir d fs := by
  rw [ensureArchiveDir_eq d fs, ensureArchiveDir_eq d]
  congr 1 <;> funext q <;>
    by_cases hq1 : q = getArchivePath d <;>
    by_cases hq2 : q = getArchivePath d ++ "/.keep" <;>
    simp [hq1, hq2, keepPath_ne_dirPath d, (keepPath_ne_dirPath d).symm]

/-- C9: ensureArchiveDir is idempotent — after N calls (N at least 1) the
archive directory exists with mode 0770 (not 0777) and owner 70:70, with the
`.keep` placeholder inside, and the state is the same regardless of N. -/
theorem ensureArchiveDir_spec (d : String) (fs : ArchFS) (N : Nat)
    (hN : 1 ≤ N) :
    (ensureArchiveDir d)^[N] fs = ensureArchiveDir d fs ∧
    ((ensureArchiveDir d)^[N] fs).dirs (getArchivePath d) =
      some ⟨0o770, 70, 70⟩ ∧
    (0o770 : Nat) ≠ 0o777 ∧
    (((ensureArchiveDir d)^[N] fs).files
      (getArchivePath d ++ "/.keep")).isSome = true := by
  have hiter : (ensureArchiveDir d)^[N] fs = ensureArchiveDir d fs := by
    induction N with
    | zero => omega
    | succ n ih =>
      rcases Nat.eq_or_lt_of_le hN with h1 | h1
      · rw [← h1]
        simp
      · have hn : 1 ≤ n := by omega
        rw [Function.iterate_succ_apply' (ensureArchiveDir d) n fs, ih hn,
          ensureArchiveDir_idem]
  refine ⟨hiter, ?_, by decide, ?_⟩
  · rw [hiter, ensureArchiveDir_eq]
    simp
  · rw [hiter, ensureArchiveDir_eq]
    simp

/-- Witness for C9 on the empty filesystem with two calls. -/
theorem ensureArchiveDir_spec_witness :
    (1 ≤ 2) ∧
    ((ensureArchiveDir "api-main")^[2]
      { dirs := fun _ => none, files := fun _ => none }).dirs
        (getArchivePath "api-main") = some ⟨0o770, 70, 70⟩ := by
  refine ⟨by decide, ?_⟩
  exact (ensureArchiveDir_spec "api-main"
    { dirs := fun _ => none, files := fun _ => none } 2 (by decide)).2.1

/-! ## C8 — detectOrphans (src/utils/orphan-detection.ts) -/

/-- The `[A-Za-z0-9_-]` character class of project and branch names. -/
def isNameChar (c : Char) : Bool :=
  (decide ('A' ≤ c) && decide (c ≤ 'Z')) ||
  (decide ('a' ≤ c) && decide (c ≤ 'z')) ||
  (decide ('0' ≤ c) && decide (c ≤ '9')) ||
  c == '_' || c == '-'

/-- Modelled from the spec: parseNamespace of src/utils/namespace.ts is
absent from the dump.  A namespaced name is `<project>/<branch>` with each
side non-empty and in the `[A-Za-z0-9_-]` class; anything else does not
parse. -/
def parseNamespace (s : String) : Option (String × String) :=
  match jsSplit '/' s with
  | [p, b] =>
    if p.isEmpty || b.isEmpty then none
    else if p.toList.all isNameChar && b.toList.all isNameChar then some (p, b)
    else none
  | _ => none

/-- Modelled from the spec: the fixed product prefix of container names
(CONTAINER_PREFIX of src/config/constants.ts, derived from package.json —
`velo` for this repository). -/
def CONTAINER_PREFIX : String := "velo"

/-- Modelled from the spec: getContainerName of src/utils/naming.ts is
absent from the dump; a branch's container name is
`<prefix>-<project>-<branch>`. -/
def getContainerName (project branch : String) : String :=
  CONTAINER_PREFIX ++ "-" ++ project ++ "-" ++ branch

/-- One dataset as reported by `zfs list` through the filesystem driver. -/
structure ZfsDatasetInfo where
  name : String
  type : String
  used : Int
  created : Int
deriving DecidableEq, Repr

/-- One container as reported by the container runtime. -/
structure ContainerInfo where
  id : String
  name : String
  state : String
  startedAt : Int
deriving DecidableEq, Repr

/-- An orphaned dataset record of the detection result. -/
structure OrphanedDataset where
  name : String
  fullPath : String
  sizeBytes : Int
  createdAt : Int
deriving DecidableEq, Repr

/-- An orphaned container record of the detection result. -/
structure OrphanedContainer where
  name : String
  id : String
  state : String
  createdAt : Int
deriving DecidableEq, Repr

/-- The result of detectOrphans. -/
structure OrphanDetectionResult where
  datasets : List OrphanedDataset
  containers : List OrphanedContainer
  totalOrphans : Nat
  totalWastedBytes : Int
deriving DecidableEq, Repr

/-- extractDatasetName: strip the `<pool>/<base>/` prefix, or report
no name (the source's null) when the full path does not carry it. -/
def extractDatasetName (fullPath pool datasetBase : String) : Option String :=
  let pfx := pool ++ "/" ++ datasetBase ++ "/"
  if pfx.toList.isPrefixOf fullPath.toList then
    some ((fullPath.toList.drop pfx.toList.length).asString)
  else none

/-- The dataset names the state expects to exist: each branch's zfsDataset,
for branches whose namespaced name parses. -/
def expectedDatasets (st : State) : List String :=
  (st.projects.map (fun p =>
    p.branches.filterMap (fun b =>
      if (parseNamespace b.name).isSome then some b.zfsDataset else none))).flatten

/-- The container names the state expects to exist:
`<prefix>-<project>-<branch>` for branches whose name parses. -/
def expectedContainers (st : State) : List String :=
  (st.projects.map (fun p =>
    p.branches.filterMap (fun b =>
      (parseNamespace b.name).map (fun pr => getContainerName pr.1 pr.2)))).flatten

/-- The per-dataset orphan test of detectOrphans: skip non-filesystem types,
skip paths outside the base (no extracted name), skip the base itself (empty
extracted name or equality with `<pool>/<base>`), and keep what the state
does not expect. -/
def isOrphanDataset (st : State) (d : ZfsDatasetInfo) : Option OrphanedDataset :=
  if d.type ≠ "filesystem" then none
  else
    match extractDatasetName d.name st.zfsPool st.zfsDatasetBase with
    | none => none
    | some simpleName =>
      if simpleName = "" ∨ d.name = st.zfsPool ++ "/" ++ st.zfsDatasetBase then
        none
      else if (expectedDatasets st).contains simpleName then none
      else some ⟨simpleName, d.name, d.used, d.created⟩

/-- The per-container orphan test of detectOrphans: only containers whose
name starts with the product prefix, and that the state does not expect. -/
def isOrphanContainer (st : State) (c : ContainerInfo) : Option OrphanedContainer :=
  if !(CONTAINER_PREFIX.toList.isPrefixOf c.name.toList) then none
  else if (expectedContainers st).contains c.name then none
  else some ⟨c.name, c.id, c.state, c.startedAt⟩

/-- detectOrphans over the state document and the actually existing datasets
and containers. -/
def detectOrphans (st : State) (actualDatasets : List ZfsDatasetInfo)
    (actualContainers : List ContainerInfo) : OrphanDetectionResult :=
  let orphanedDatasets := actualDatasets.filterMap (isOrphanDataset st)
  let orphanedContainers := actualContainers.filterMap (isOrphanContainer st)
  { datasets := orphanedDatasets
    containers := orphanedContainers
    totalOrphans := orphanedDatasets.length + orphanedContainers.length
    totalWastedBytes := (orphanedDatasets.map (·.sizeBytes)).sum }

/-- The symmetric difference of state-expected dataset names and
actually-existing dataset names (after the claim's exclusions), written from
the claim's words for comparison with the code's one-sided computation. -/
def specSymmDiffDatasetNames (st : State)
    (actualDatasets : List ZfsDatasetInfo) : List String :=
  let existing := actualDatasets.filterMap (fun d =>
    if d.type = "filesystem" then
      match extractDatasetName d.name st.zfsPool st.zfsDatasetBase with
      | some n => if n = "" then none else some n
      | none => none
    else none)
  existing.filter (fun n => !((expectedDatasets st).contains n)) ++
    (expectedDatasets st).filter (fun n => !(existing.contains n))

/-- State document for the C8 counterexample: one branch whose dataset is
expected but does not exist on the filesystem. -/
def c8State : State :=
  { version := "1.0.0"
    initializedAt := 0
    zfsPool := "tank"
    zfsDatasetBase := "velo/databases"
    projects :=
      [ { id := "p1", name := "api", dockerImage := "postgres:17-alpine"
          sslCertDir := "/certs/api", createdAt := 0
          credentials := { username := "postgres", password := "pw"
                           database := "postgres" }
          branches :=
            [ { id := "b1", name := "api/dev", projectName := "api"
                parentBranchId := none, isPrimary := true
                snapshotName := none, zfsDataset := "api-dev", port := 5432
                createdAt := 0, sizeBytes := 0, status := .running } ] } ]
    snapshots := [] }

/-- C8 counterexample: with an expected dataset missing from the filesystem,
the symmetric difference contains its name, but detectOrphans reports
nothing — the detector computes only the one-sided difference
(existing minus expected), so the result is not the symmetric difference. -/
theorem detectOrphans_missing_expected :
    (detectOrphans c8State [] []).datasets = [] ∧
    (detectOrphans c8State [] []).containers = [] ∧
    "api-dev" ∈ specSymmDiffDatasetNames c8State [] ∧
    ∀ o ∈ (detectOrphans c8State [] []).datasets, o.name ≠ "api-dev" := by
  refine ⟨rfl, rfl, by decide, ?_⟩
  intro o ho
  simp [detectOrphans] at ho

/-- C8 (amended): the detection result is exactly the one-sided difference —
the actually-existing resources the state does not expect — after excluding
the base dataset itself, non-filesystem dataset types, and containers whose
names do not carry the product prefix; expected-but-missing resources are
not reported.  totalWastedBytes is the sum of the orphan datasets'
used-space and totalOrphans counts both lists. -/
theorem detectOrphans_spec (st : State) (actualDatasets : List ZfsDatasetInfo)
    (actualContainers : List ContainerInfo) :
    (∀ o, o ∈ (detectOrphans st actualDatasets actualContainers).datasets ↔
      ∃ d ∈ actualDatasets, d.type = "filesystem" ∧
        ∃ n, extractDatasetName d.name st.zfsPool st.zfsDatasetBase = some n ∧
          n ≠ "" ∧ d.name ≠ st.zfsPool ++ "/" ++ st.zfsDatasetBase ∧
          n ∉ expectedDatasets st ∧
          o = ⟨n, d.name, d.used, d.created⟩) ∧
    (∀ o, o ∈ (detectOrphans st actualDatasets actualContainers).containers ↔
      ∃ c ∈ actualContainers,
        CONTAINER_PREFIX.toList.isPrefixOf c.name.toList = true ∧
        c.name ∉ expectedContainers st ∧
        o = ⟨c.name, c.id, c.state, c.startedAt⟩) ∧
    (detectOrphans st actualDatasets actualContainers).totalWastedBytes =
      (((detectOrphans st actualDatasets actualContainers).datasets).map
        (·.sizeBytes)).sum ∧
    (detectOrphans st actualDatasets actualContainers).totalOrphans =
      (detectOrphans st actualDatasets actualContainers).datasets.length +
      (detectOrphans st actualDatasets actualContainers).containers.length := by
  refine ⟨?_, ?_, rfl, rfl⟩
  · intro o
    simp only [detectOrphans, List.mem_filterMap]
    constructor
    · rintro ⟨d, hd, hf⟩
      refine ⟨d, hd, ?_⟩
      unfold isOrphanDataset at hf
      by_cases ht : d.type ≠ "filesystem"
      · rw [if_pos ht] at hf
        exact absurd hf (by simp)
      · rw [if_neg ht] at hf
        push_neg at ht
        refine ⟨ht, ?_⟩
        cases hx : extractDatasetName d.name st.zfsPool st.zfsDatasetBase with
        | none =>
          rw [hx] at hf
          exact absurd hf (by simp)
        | some n =>
          rw [hx] at hf
          dsimp only at hf
          by_cases hbase : n = "" ∨ d.name = st.zfsPool ++ "/" ++ st.zfsDatasetBase
          · rw [if_pos hbase] at hf
            exact absurd hf (by simp)
          · rw [if_neg hbase] at hf
            push_neg at hbase
            by_cases hexp : (expectedDatasets st).contains n
            · rw [if_pos hexp] at hf
              exact absurd hf (by simp)
            · rw [if_neg hexp] at hf
              simp only [Option.some.injEq] at hf
              exact ⟨n, rfl, hbase.1, hbase.2,
                fun hc => hexp (List.elem_eq_true_of_mem hc), hf.symm⟩
    · rintro ⟨d, hd, ht, n, hx, hne, hnb, hnexp, rfl⟩
      refine ⟨d, hd, ?_⟩
      unfold isOrphanDataset
      rw [if_neg (by simp [ht]), hx]
      dsimp only
      rw [if_neg (by simp [hne, hnb]), if_neg (by simpa using hnexp)]
  · intro o
    simp only [detectOrphans, List.mem_filterMap]
    constructor
    · rintro ⟨c, hc, hf⟩
      unfold isOrphanContainer at hf
      cases hp : CONTAINER_PREFIX.toList.isPrefixOf c.name.toList with
      | false =>
        rw [if_pos (by simp only [hp]; decide)] at hf
        exact absurd hf (by simp)
      | true =>
        rw [if_neg (by simp only [hp]; decide)] at hf
        by_cases hexp : (expectedContainers st).contains c.name
        · rw [if_pos hexp] at hf
          exact absurd hf (by simp)
        · rw [if_neg hexp] at hf
          simp only [Option.some.injEq] at hf
          exact ⟨c, hc, hp,
            fun hmem => hexp (List.elem_eq_true_of_mem hmem), hf.symm⟩
    · rintro ⟨c, hc, hp, hnexp, rfl⟩
      refine ⟨c, hc, ?_⟩
      unfold isOrphanContainer
      rw [if_neg (by simp only [hp]; decide), if_neg (by simpa using hnexp)]

/-- Witness for the amended C8 theorem: a manually created `ghost` dataset
under the base is detected as an orphan. -/
theorem detectOrphans_spec_witness :
    (⟨"ghost", "tank/velo/databases/ghost", (1024 : Int), (0 : Int)⟩ :
        OrphanedDataset) ∈
      (detectOrphans c8State
        [⟨"tank/velo/databases/ghost", "filesystem", 1024, 0⟩] []).datasets := by
  exact ((detectOrphans_spec c8State
      [⟨"tank/velo/databases/ghost", "filesystem", 1024, 0⟩] []).1 _).mpr
    ⟨⟨"tank/velo/databases/ghost", "filesystem", 1024, 0⟩, by simp, by decide,
      "ghost", by decide, by decide, by decide, by decide, rfl⟩

/-! ## C5 — branch delete: post-order collection and sequential dataset
destruction (src/commands/branch/delete.ts) -/

/-- collectDescendants: the children of the branch (those whose
parentBranchId equals its id), each preceded by its own recursively
collected descendants — a depth-first post-order.  The `fuel` argument
bounds the recursion for termination in the model; on the forest-shaped
states of the data model any fuel above the subtree height yields the
recursion's value. -/
def collectDescendants (fuel : Nat) (branch : Branch)
    (allBranches : List Branch) : List Branch :=
  match fuel with
  | 0 => []
  | fuel + 1 =>
    (allBranches.filter (fun b => b.parentBranchId == some branch.id)).flatMap
      (fun child => collectDescendants fuel child allBranches ++ [child])

/-- The deletion list of branchDeleteCommand:
`[...descendants, branch]`. -/
def branchesToDelete (fuel : Nat) (branch : Branch) (all : List Branch) :
    List Branch :=
  collectDescendants fuel branch all ++ [branch]

/-- Modelled from the spec: getDatasetName of src/utils/naming.ts is absent
from the dump; a branch's dataset name is `<project>-<branch>`. -/
def getDatasetName (project branch : String) : String :=
  project ++ "-" ++ branch

/-- The dataset name of a branch record, via its parsed namespaced name. -/
def branchDatasetName (b : Branch) : String :=
  match parseNamespace b.name with
  | some pr => getDatasetName pr.1 pr.2
  | none => ""

/-- The ZFS calls of the sequential destruction loop. -/
inductive ZfsOp
  | unmount (ds : String)
  | destroy (ds : String)
deriving DecidableEq, Repr

/-- The sequential dataset-destruction loop of branchDeleteCommand: for each
branch in order, if its dataset exists, unmount then destroy it; a missing
dataset contributes nothing (tolerated, no error). -/
def destroyPhaseOps (branches : List Branch) (dsExists : String → Bool) :
    List ZfsOp :=
  branches.flatMap (fun b =>
    if dsExists (branchDatasetName b) then
      [ZfsOp.unmount (branchDatasetName b),
       ZfsOp.destroy (branchDatasetName b)]
    else [])

/-- x occurs before y in L: every occurrence of y has an earlier occurrence
of x. -/
def OccursBefore {α : Type} (x y : α) (L : List α) : Prop :=
  ∀ j : Nat, L[j]? = some y → ∃ i : Nat, i < j ∧ L[i]? = some x

/-- Occurrence order is preserved by concatenation when it holds in each
part. -/
theorem occursBefore_append {α : Type} {x y : α} {L₁ L₂ : List α}
    (h₁ : OccursBefore x y L₁) (h₂ : OccursBefore x y L₂) :
    OccursBefore x y (L₁ ++ L₂) := by
  intro j hj
  by_cases hl : j < L₁.length
  · rw [List.getElem?_append_left hl] at hj
    obtain ⟨i, hij, hi⟩ := h₁ j hj
    exact ⟨i, hij, by rw [List.getElem?_append_left (by omega)]; exact hi⟩
  · push_neg at hl
    rw [List.getElem?_append_right hl] at hj
    obtain ⟨i, hij, hi⟩ := h₂ _ hj
    refine ⟨L₁.length + i, by omega, ?_⟩
    rw [List.getElem?_append_right (by omega)]
    simpa using hi

/-- Appending one trailing element preserves occurrence order, provided x
is in the prefix whenever y is that element. -/
theorem occursBefore_append_last {α : Type} {x y b : α} {L : List α}
    (h : OccursBefore x y L) (hb : y = b → x ∈ L) :
    OccursBefore x y (L ++ [b]) := by
  intro j hj
  by_cases hl : j < L.length
  · rw [List.getElem?_append_left hl] at hj
    obtain ⟨i, hij, hi⟩ := h j hj
    exact ⟨i, hij, by rw [List.getElem?_append_left (by omega)]; exact hi⟩
  · push_neg at hl
    rw [List.getElem?_append_right hl] at hj
    have hjlen : j - L.length < 1 := by
      rcases List.getElem?_eq_some.mp hj with ⟨hlt, -⟩
      simpa using hlt
    have hyb : y = b := by
      have h0 : j - L.length = 0 := by omega
      rw [h0] at hj
      simpa using hj.symm
    obtain ⟨i, hi⟩ := List.mem_iff_getElem?.mp (hb hyb)
    have hilen : i < L.length := by
      rcases List.getElem?_eq_some.mp hi with ⟨hlt, -⟩
      exact hlt
    refine ⟨i, by omega, ?_⟩
    rw [List.getElem?_append_left hilen]
    exact hi

/-- Occurrence order holds in a flatMap when it holds in every piece. -/
theorem occursBefore_flatMap {α β : Type} {x y : β} {l : List α}
    {f : α → List β} (h : ∀ u ∈ l, OccursBefore x y (f u)) :
    OccursBefore x y (l.flatMap f) := by
  induction l with
  | nil => intro j hj; simp at hj
  | cons u rest ih =>
    rw [List.flatMap_cons]
    exact occursBefore_append (h u (List.mem_cons_self _ _))
      (ih fun v hv => h v (List.mem_cons_of_mem _ hv))

/-- C5's core ordering: in the post-order collection followed by the target,
every child occurs before its parent.  The rank function witnesses that the
parent links of the state form a forest (children have smaller rank), which
also bounds the recursion depth. -/
theorem collectDescendants_child_before_parent
    (all : List Branch) (rank : String → Nat)
    (hrank : ∀ c ∈ all, ∀ pid, c.parentBranchId = some pid →
      rank c.id < rank pid) :
    ∀ (fuel : Nat) (b : Branch), rank b.id + 1 ≤ fuel →
      ∀ c p, c ∈ all → c.parentBranchId = some p.id →
        OccursBefore c p (collectDescendants fuel b all ++ [b]) := by
  intro fuel
  induction fuel with
  | zero => intro b hb; omega
  | succ fuel ih =>
    intro b hb c p hc hpar
    apply occursBefore_append_last
    · rw [collectDescendants]
      apply occursBefore_flatMap
      intro u hu
      have hu' := List.mem_filter.mp hu
      have hupar : u.parentBranchId = some b.id := by simpa using hu'.2
      have hru : rank u.id < rank b.id := hrank u hu'.1 b.id hupar
      exact ih u (by omega) c p hc hpar
    · intro hpb
      rw [collectDescendants]
      apply List.mem_flatMap.mpr
      refine ⟨c, List.mem_filter.mpr ⟨hc, ?_⟩, ?_⟩
      · rw [hpar, hpb]
        simp
      · exact List.mem_append.mpr (Or.inr (by simp))

/-- Descendant relation generated by the parent back-links of the state. -/
inductive DescendantOf (all : List Branch) : Branch → Branch → Prop
  | child {b c : Branch} : c ∈ all → c.parentBranchId = some b.id →
      DescendantOf all b c
  | step {b m c : Branch} : DescendantOf all b m → c ∈ all →
      c.parentBranchId = some m.id → DescendantOf all b c

/-- The descendant relation is transitive. -/
theorem descendantOf_trans (all : List Branch) {b u x : Branch}
    (hbu : DescendantOf all b u) (hux : DescendantOf all u x) :
    DescendantOf all b x := by
  induction hux with
  | child hc hp => exact DescendantOf.step hbu hc hp
  | step _ hc hp ihd => exact DescendantOf.step ihd hc hp

/-- Everything the post-order collection gathers descends from the target. -/
theorem collectDescendants_sound (all : List Branch) :
    ∀ (fuel : Nat) (b x : Branch), x ∈ collectDescendants fuel b all →
      DescendantOf all b x := by
  intro fuel
  induction fuel with
  | zero =>
    intro b x hx
    simp [collectDescendants] at hx
  | succ fuel ih =>
    intro b x hx
    rw [collectDescendants] at hx
    obtain ⟨u, hu, hxu⟩ := List.mem_flatMap.mp hx
    have hu' := List.mem_filter.mp hu
    have hupar : u.parentBranchId = some b.id := by simpa using hu'.2
    have hchild : DescendantOf all b u := DescendantOf.child hu'.1 hupar
    rcases List.mem_append.mp hxu with hxu | hxu
    · exact descendantOf_trans all hchild (ih u x hxu)
    · have : x = u := by simpa using hxu
      rw [this]
      exact hchild

/-- Transport of occurrence order through the per-branch op lists of the
destruction loop: the ops of c occur before the ops of p when c occurs
before p and only p emits p's op. -/
theorem occursBefore_flatMap_transport {α β : Type} {f : α → List β}
    {c p : α} {oc op : β} {L : List α}
    (hL : OccursBefore c p L) (hoc : oc ∈ f c)
    (hop : ∀ b ∈ L, op ∈ f b → b = p) :
    OccursBefore oc op (L.flatMap f) := by
  induction L with
  | nil => intro j hj; simp at hj
  | cons b rest ih =>
    intro j hj
    rw [List.flatMap_cons] at hj
    by_cases hjb : j < (f b).length
    · rw [List.getElem?_append_left hjb] at hj
      have hopb : op ∈ f b := List.getElem?_mem hj
      have hbp : b = p := hop b (List.mem_cons_self _ _) hopb
      subst hbp
      obtain ⟨i, hi, -⟩ := hL 0 (by simp)
      omega
    · push_neg at hjb
      rw [List.getElem?_append_right hjb] at hj
      by_cases hcb : c = b
      · subst hcb
        obtain ⟨i, hi⟩ := List.mem_iff_getElem?.mp hoc
        have hilen : i < (f c).length := by
          rcases List.getElem?_eq_some.mp hi with ⟨hlt, -⟩
          exact hlt
        refine ⟨i, by omega, ?_⟩
        rw [List.flatMap_cons, List.getElem?_append_left hilen]
        exact hi
      · have hrest : OccursBefore c p rest := by
          intro j' hj'
          obtain ⟨i, hi, hci⟩ := hL (j' + 1) (by simpa using hj')
          cases i with
          | zero =>
            simp only [List.getElem?_cons_zero, Option.some.injEq] at hci
            exact absurd hci.symm hcb
          | succ i =>
            exact ⟨i, by omega, by simpa using hci⟩
        obtain ⟨i2, hi2, hoc2⟩ :=
          ih hrest (fun b' hb' => hop b' (List.mem_cons_of_mem _ hb')) _ hj
        refine ⟨(f b).length + i2, by omega, ?_⟩
        rw [List.flatMap_cons, List.getElem?_append_right (by omega)]
        simpa using hoc2

/-- C5: branch delete collects the subtree of the target in post-order —
the target comes last, every child occurs before its parent, the list is
closed under children of its members, and contains only descendants of the
target besides the target itself; the sequential destruction loop emits the
child's dataset destroy before the parent's, and emits no destroy for a
dataset that does not exist (missing datasets are skipped without error).
The rank hypothesis states that the state's parent links form a forest; the
injectivity hypothesis is dataset-name uniqueness on the deletion list. -/
theorem branchDelete_postorder_spec
    (all : List Branch) (target : Branch) (fuel : Nat)
    (rank : String → Nat)
    (hrank : ∀ c ∈ all, ∀ pid, c.parentBranchId = some pid →
      rank c.id < rank pid)
    (hfuel : rank target.id + 1 ≤ fuel)
    (dsExists : String → Bool)
    (hinj : ∀ x ∈ branchesToDelete fuel target all,
      ∀ y ∈ branchesToDelete fuel target all,
      branchDatasetName x = branchDatasetName y → x = y) :
    (branchesToDelete fuel target all).getLast? = some target ∧
    (∀ c p, c ∈ all → c.parentBranchId = some p.id →
      OccursBefore c p (branchesToDelete fuel target all)) ∧
    (∀ p c, p ∈ branchesToDelete fuel target all → c ∈ all →
      c.parentBranchId = some p.id → c ∈ branchesToDelete fuel target all) ∧
    (∀ x ∈ collectDescendants fuel target all, DescendantOf all target x) ∧
    (∀ c p, c ∈ all → c.parentBranchId = some p.id →
      c ∈ branchesToDelete fuel target all →
      p ∈ branchesToDelete fuel target all →
      dsExists (branchDatasetName c) = true →
      OccursBefore (ZfsOp.destroy (branchDatasetName c))
        (ZfsOp.destroy (branchDatasetName p))
        (destroyPhaseOps (branchesToDelete fuel target all) dsExists)) ∧
    (∀ nm, ZfsOp.destroy nm ∈
        destroyPhaseOps (branchesToDelete fuel target all) dsExists →
      dsExists nm = true) := by
  have horder : ∀ c p, c ∈ all → c.parentBranchId = some p.id →
      OccursBefore c p (branchesToDelete fuel target all) :=
    fun c p hc hp =>
      collectDescendants_child_before_parent all rank hrank fuel target
        hfuel c p hc hp
  refine ⟨List.getLast?_concat _, horder, ?_, ?_, ?_, ?_⟩
  · intro p c hp hc hpar
    obtain ⟨j, hj⟩ := List.mem_iff_getElem?.mp hp
    obtain ⟨i, -, hi⟩ := horder c p hc hpar j hj
    exact List.getElem?_mem hi
  · exact collectDescendants_sound all fuel target
  · intro c p hc hpar hcl hpl hcex
    apply occursBefore_flatMap_transport (horder c p hc hpar)
    · simp [hcex]
    · intro b hb hop
      by_cases hbex : dsExists (branchDatasetName b)
      · rw [if_pos hbex] at hop
        have hname : branchDatasetName b = branchDatasetName p := by
          rcases List.mem_cons.mp hop with h | h
          · exact absurd h (by simp)
          · exact (by simpa using h : branchDatasetName p = branchDatasetName b).symm
        exact hinj b hb p hpl hname
      · rw [if_neg hbex] at hop
        exact absurd hop (by simp)
  · intro nm hnm
    obtain ⟨b, -, hop⟩ := List.mem_flatMap.mp hnm
    by_cases hbex : dsExists (branchDatasetName b)
    · rw [if_pos hbex] at hop
      have : nm = branchDatasetName b := by
        rcases List.mem_cons.mp hop with h | h
        · exact absurd h (by simp)
        · simpa using h
      rw [this]
      exact hbex
    · rw [if_neg hbex] at hop
      exact absurd hop (by simp)

/-- Deletion target of the C5 witness (child of the primary). -/
def c5A : Branch :=
  { id := "a", name := "api/dev", projectName := "api"
    parentBranchId := some "m", isPrimary := false, snapshotName := none
    zfsDataset := "api-dev", port := 1, createdAt := 0, sizeBytes := 0
    status := .running }

/-- Child of the target in the C5 witness. -/
def c5B : Branch :=
  { id := "b", name := "api/f1", projectName := "api"
    parentBranchId := some "a", isPrimary := false, snapshotName := none
    zfsDataset := "api-f1", port := 2, createdAt := 0, sizeBytes := 0
    status := .running }

/-- Grandchild of the target in the C5 witness. -/
def c5C : Branch :=
  { id := "c", name := "api/f2", projectName := "api"
    parentBranchId := some "b", isPrimary := false, snapshotName := none
    zfsDataset := "api-f2", port := 3, createdAt := 0, sizeBytes := 0
    status := .running }

/-- Rank function of the C5 witness forest. -/
def c5rank : String → Nat :=
  fun s => if s = "c" then 0 else if s = "b" then 1 else if s = "a" then 2 else 3

/-- Witness for C5 on the chain target ← child ← grandchild: the deletion
list ends with the target and the grandchild occurs before the child. -/
theorem branchDelete_postorder_spec_witness :
    (branchesToDelete 3 c5A [c5A, c5B, c5C]).getLast? = some c5A ∧
    OccursBefore c5C c5B (branchesToDelete 3 c5A [c5A, c5B, c5C]) := by
  have hrank : ∀ c ∈ [c5A, c5B, c5C], ∀ pid,
      c.parentBranchId = some pid → c5rank c.id < c5rank pid := by
    intro c hc pid hpid
    rcases List.mem_cons.mp hc with rfl | hc
    · obtain rfl := (Option.some.inj hpid).symm
      decide
    rcases List.mem_cons.mp hc with rfl | hc
    · obtain rfl := (Option.some.inj hpid).symm
      decide
    rcases List.mem_cons.mp hc with rfl | hc
    · obtain rfl := (Option.some.inj hpid).symm
      decide
    · simp at hc
  have h := branchDelete_postorder_spec [c5A, c5B, c5C] c5A 3 c5rank hrank
    (by decide) (fun _ => true) (by decide)
  exact ⟨h.1, h.2.1 c5C c5B (by decide) (by decide)⟩

/-! ## C3 — StateManager.save and acquireLock (src/managers/state.ts,
lines 61-99 and 405-437) -/

/-- The sibling files of the state file that the save protocol touches:
the primary, the single `.backup`, the transient `.tmp`, and the `.lock`
(holding the holder's pid rendered as a string). -/
structure SaveFS where
  primary : Option String
  backup : Option String
  temp : Option String
  lock : Option String
deriving DecidableEq, Repr

/-- The externally visible operations of the protocol, for the trace. -/
inductive SaveOp
  | lockCreate (pid : Nat)
  | unlinkStaleLock
  | sleep100
  | writeTemp (content : String)
  | fsyncTemp
  | copyBackup
  | renameTempToPrimary
  | fsyncDir
  | unlinkLock
deriving DecidableEq, Repr

/-- The `parseInt` of the lock-file content, modelled structurally for the
decimal pid strings the program writes (a non-digit or empty content is the
source's NaN, answered by waiting and retrying). -/
def parsePid (s : String) : Option Nat :=
  if !s.toList.isEmpty && s.toList.all Char.isDigit then
    some (s.toList.foldl (fun n c => n * 10 + (c.toNat - '0'.toNat)) 0)
  else none

/-- StateManager.acquireLock: up to `fuel` attempts (50 in the source, one
per 100 ms of waiting).  Exclusive create succeeds on a free lock; on
contention the holder's pid is parsed and probed: a dead holder's lock is
unlinked and retried immediately, otherwise (or when parsing fails) the
loop sleeps 100 ms; exhausted fuel is the 5-second locking error. -/
def acquireLockLoop (pid : Nat) (alive : Nat → Bool) :
    Nat → SaveFS → List SaveOp → Except String Unit × SaveFS × List SaveOp
  | 0, fs, tr =>
    (.error "Failed to acquire state lock after 5 seconds", fs, tr)
  | fuel + 1, fs, tr =>
    match fs.lock with
    | none =>
      (.ok (), { fs with lock := some (toString pid) },
        tr ++ [SaveOp.lockCreate pid])
    | some content =>
      match parsePid content with
      | some lockPid =>
        if alive lockPid then
          acquireLockLoop pid alive fuel fs (tr ++ [SaveOp.sleep100])
        else
          acquireLockLoop pid alive fuel { fs with lock := none }
            (tr ++ [SaveOp.unlinkStaleLock])
      | none => acquireLockLoop pid alive fuel fs (tr ++ [SaveOp.sleep100])

/-- The body of StateManager.save inside the try block, with an optional
injected failure (`failAt` numbers the five steps: write temp, fsync temp,
backup copy, rename, fsync directory).  A failure in the backup step is
swallowed by the source's inner try/catch — save continues without a
backup; the other failures abort. -/
def saveBody (content : String) (failAt : Option Nat) (fs : SaveFS) :
    Except String Unit × SaveFS × List SaveOp :=
  if failAt = some 0 then (.error "EIO writeFile", fs, [])
  else
    let fs0 := { fs with temp := some content }
    if failAt = some 1 then
      (.error "EIO fsync", fs0, [SaveOp.writeTemp content])
    else
      let tr1 := [SaveOp.writeTemp content, SaveOp.fsyncTemp]
      let step2 :=
        if failAt = some 2 then (fs0, tr1)
        else
          match fs0.primary with
          | some p => ({ fs0 with backup := some p }, tr1 ++ [SaveOp.copyBackup])
          | none => (fs0, tr1)
      let fs2 := step2.1
      let tr2 := step2.2
      if failAt = some 3 then (.error "EIO rename", fs2, tr2)
      else
        let fs3 := { fs2 with primary := some content, temp := none }
        let tr3 := tr2 ++ [SaveOp.renameTempToPrimary]
        if failAt = some 4 then (.error "EIO fsync dir", fs3, tr3)
        else (.ok (), fs3, tr3 ++ [SaveOp.fsyncDir])

/-- StateManager.save: acquire the lock (50 attempts), run the body, and in
the finally clause release the lock by unlinking the lock file — also when
the body threw.  A lock acquisition failure propagates without touching the
files and without a release (the finally only wraps the post-acquire
region). -/
def StateManager.save (content : String) (pid : Nat) (alive : Nat → Bool)
    (failAt : Option Nat) (fs : SaveFS) :
    Except String Unit × SaveFS × List SaveOp :=
  match acquireLockLoop pid alive 50 fs [] with
  | (.error e, fs1, tr1) => (.error e, fs1, tr1)
  | (.ok _, fs1, tr1) =>
    match saveBody content failAt fs1 with
    | (r, fs2, tr2) =>
      (r, { fs2 with lock := none }, tr1 ++ tr2 ++ [SaveOp.unlinkLock])

/-- A free lock is acquired immediately with the caller's pid as content. -/
theorem acquireLockLoop_free (pid : Nat) (alive : Nat → Bool) (fuel : Nat)
    (fs : SaveFS) (tr : List SaveOp) (h : fs.lock = none) (hf : fuel ≠ 0) :
    acquireLockLoop pid alive fuel fs tr =
      (.ok (), { fs with lock := some (toString pid) },
        tr ++ [SaveOp.lockCreate pid]) := by
  cases fuel with
  | zero => exact absurd rfl hf
  | succ fuel =>
    rw [acquireLockLoop, h]

/-- A lock held by a dead process is reclaimed: unlink, then immediate
acquisition. -/
theorem acquireLockLoop_stale (pid q : Nat) (alive : Nat → Bool)
    (fuel : Nat) (fs : SaveFS) (tr : List SaveOp) (s : String)
    (h : fs.lock = some s) (hq : parsePid s = some q) (hd : alive q = false)
    (hf : 2 ≤ fuel) :
    acquireLockLoop pid alive fuel fs tr =
      (.ok (), { fs with lock := some (toString pid) },
        tr ++ [SaveOp.unlinkStaleLock, SaveOp.lockCreate pid]) := by
  obtain ⟨f, rfl⟩ : ∃ f, fuel = f + 2 := ⟨fuel - 2, by omega⟩
  rw [acquireLockLoop, h]
  dsimp only
  rw [hq]
  dsimp only
  rw [if_neg (by rw [hd]; simp)]
  rw [acquireLockLoop_free pid alive (f + 1) _ _ rfl (by omega)]
  simp

/-- A lock held by a live process is never acquired: each attempt sleeps
100 ms and the loop fails after the fuel (50 attempts, 5 seconds) runs out,
leaving every file untouched. -/
theorem acquireLockLoop_live (pid q : Nat) (alive : Nat → Bool)
    (fs : SaveFS) (s : String)
    (h : fs.lock = some s) (hq : parsePid s = some q) (ha : alive q = true) :
    ∀ (fuel : Nat) (tr : List SaveOp),
      acquireLockLoop pid alive fuel fs tr =
        (.error "Failed to acquire state lock after 5 seconds", fs,
          tr ++ List.replicate fuel SaveOp.sleep100) := by
  intro fuel
  induction fuel with
  | zero =>
    intro tr
    rw [acquireLockLoop]
    simp
  | succ fuel ih =>
    intro tr
    rw [acquireLockLoop, h]
    dsimp only
    rw [hq]
    dsimp only
    rw [if_pos (by rw [ha])]
    rw [ih (tr ++ [SaveOp.sleep100])]
    simp [List.replicate_succ, List.append_assoc]

/-- C3: the save protocol — (1) with a free lock the run performs exactly
lock create (with the caller's pid), temp write, temp fsync, backup copy
(only when the primary exists, into the single `.backup` sibling), atomic
rename of temp over primary, directory fsync, and lock unlink, in that
order; (2) a lock held by a dead process is reclaimed (unlink then create)
and the run proceeds identically; (3) a lock held by a live process makes
save fail with the locking error after 50 100-ms polls, with every file
untouched; (4) whatever step an injected failure hits, the lock is released
afterwards and the primary is either the old or the new content — never a
torn write. -/
theorem save_protocol_spec (content : String) (pid q : Nat)
    (alive : Nat → Bool) (fs : SaveFS) (s : String) :
    (fs.lock = none →
      StateManager.save content pid alive none fs =
        (.ok (),
         { primary := some content
           backup := match fs.primary with
                     | some p => some p
                     | none => fs.backup
           temp := none
           lock := none },
         [SaveOp.lockCreate pid, SaveOp.writeTemp content, SaveOp.fsyncTemp] ++
           (if fs.primary.isSome then [SaveOp.copyBackup] else []) ++
           [SaveOp.renameTempToPrimary, SaveOp.fsyncDir, SaveOp.unlinkLock])) ∧
    (fs.lock = some s → parsePid s = some q → alive q = false →
      StateManager.save content pid alive none fs =
        (.ok (),
         { primary := some content
           backup := match fs.primary with
                     | some p => some p
                     | none => fs.backup
           temp := none
           lock := none },
         [SaveOp.unlinkStaleLock, SaveOp.lockCreate pid,
          SaveOp.writeTemp content, SaveOp.fsyncTemp] ++
           (if fs.primary.isSome then [SaveOp.copyBackup] else []) ++
           [SaveOp.renameTempToPrimary, SaveOp.fsyncDir, SaveOp.unlinkLock])) ∧
    (fs.lock = some s → parsePid s = some q → alive q = true →
      StateManager.save content pid alive none fs =
        (.error "Failed to acquire state lock after 5 seconds", fs,
          List.replicate 50 SaveOp.sleep100)) ∧
    (∀ k : Nat, fs.lock = none →
      (StateManager.save content pid alive (some k) fs).2.1.lock = none ∧
      ((StateManager.save content pid alive (some k) fs).2.1.primary =
          fs.primary ∨
       (StateManager.save content pid alive (some k) fs).2.1.primary =
          some content)) := by
  refine ⟨?_, ?_, ?_, ?_⟩
  · intro h
    rw [StateManager.save, acquireLockLoop_free pid alive 50 fs [] h (by omega)]
    cases hp : fs.primary <;>
      simp [saveBody, hp]
  · intro h hq hd
    rw [StateManager.save,
      acquireLockLoop_stale pid q alive 50 fs [] s h hq hd (by omega)]
    cases hp : fs.primary <;>
      simp [saveBody, hp]
  · intro h hq ha
    rw [StateManager.save, acquireLockLoop_live pid q alive fs s h hq ha 50 []]
    simp
  · intro k h
    rw [StateManager.save, acquireLockLoop_free pid alive 50 fs [] h (by omega)]
    by_cases h0 : k = 0
    · subst h0; simp [saveBody]
    by_cases h1 : k = 1
    · subst h1; simp [saveBody]
    by_cases h2 : k = 2
    · subst h2; simp [saveBody]
    by_cases h3 : k = 3
    · subst h3
      cases hp : fs.primary <;> simp [saveBody, hp]
    by_cases h4 : k = 4
    · subst h4
      cases hp : fs.primary <;> simp [saveBody, hp]
    · cases hp : fs.primary <;>
        simp [saveBody, hp, h0, h1, h2, h3, h4]

/-- Witness for C3: a clean save on a specific filesystem with a free lock,
and the live-holder timeout on a held lock. -/
theorem save_protocol_spec_witness :
    (StateManager.save "doc2" 7 (fun _ => true) none
        { primary := some "doc1", backup := none, temp := none, lock := none } =
      (.ok (),
       { primary := some "doc2", backup := some "doc1", temp := none
         lock := none },
       [SaveOp.lockCreate 7, SaveOp.writeTemp "doc2", SaveOp.fsyncTemp] ++
         [SaveOp.copyBackup] ++
         [SaveOp.renameTempToPrimary, SaveOp.fsyncDir, SaveOp.unlinkLock])) ∧
    (StateManager.save "doc2" 7 (fun _ => true) none
        { primary := some "doc1", backup := none, temp := none
          lock := some "42" } =
      (.error "Failed to acquire state lock after 5 seconds",
       { primary := some "doc1", backup := none, temp := none
         lock := some "42" },
       List.replicate 50 SaveOp.sleep100)) := by
  constructor
  · have h := (save_protocol_spec "doc2" 7 42 (fun _ => true)
      { primary := some "doc1", backup := none, temp := none, lock := none }
      "42").1 rfl
    simpa using h
  · exact (save_protocol_spec "doc2" 7 42 (fun _ => true)
      { primary := some "doc1", backup := none, temp := none
        lock := some "42" } "42").2.2.1 rfl (by decide) rfl

end Velo
